import Mathlib

/-!
The cache middleware of go-echo-cache (`cache.go`).

A shallow embedding of `New` and `CacheMiddleware` (`cache.go`) and of the
library functions they call, followed by theorems about the defaults, key
derivation, the cacheability checks, the ttl given to the store and the
control flow of `Handler`.

Conventions of the embedding:

* a Go `string` and a Go `[]byte` are both byte sequences, `List Nat`
  (every byte is a number below 256); the conversion `[]byte(s)` copies the
  bytes of `s`, so it is the identity here;
* a Go `error` is `Option GoError`, `none` being `nil`;
* code with side effects is written in state-passing style over `World`,
  which also records the calls the middleware makes, in order.
-/

namespace EchoCache

/-! ## Strings, bytes and errors -/

/-- Go `string`: an immutable sequence of bytes. -/
abbrev GoString := List Nat

/-- Go `[]byte`. -/
abbrev Bytes := List Nat

/-- The bytes of an ASCII literal (for ASCII the code point is the byte). -/
def str (s : String) : GoString := s.toList.map Char.toNat

/-- A non-nil Go error value. `ext n` is an error value created outside the
package (by the store, the codec, the handler, ...), identified by `n`;
`unableToRead e` is the value built by
`fmt.Errorf("unable to read recorded response: %s", e)` in `cacheResult`. -/
inductive GoError where
  | ext (id : Nat)
  | unableToRead (cause : GoError)
deriving DecidableEq, Repr

/-- Go `error`: `none` is `nil`. -/
abbrev GoErr := Option GoError

/-! ## `net/url`: `URL.Query` and `Values.Encode`

`getKey` calls `r.URL.Query().Encode()`. These are functions of the Go
standard library; they are transcribed here from `net/url`. -/

/-- `ishex` of `net/url`. -/
def ishex (c : Nat) : Bool :=
  ('0'.toNat ≤ c && c ≤ '9'.toNat) || ('a'.toNat ≤ c && c ≤ 'f'.toNat) ||
    ('A'.toNat ≤ c && c ≤ 'F'.toNat)

/-- `unhex` of `net/url`. -/
def unhex (c : Nat) : Nat :=
  if '0'.toNat ≤ c && c ≤ '9'.toNat then c - '0'.toNat
  else if 'a'.toNat ≤ c && c ≤ 'f'.toNat then c - 'a'.toNat + 10
  else if 'A'.toNat ≤ c && c ≤ 'F'.toNat then c - 'A'.toNat + 10
  else 0

/-- `url.QueryUnescape`: `%XX` becomes the byte `XX`, `+` becomes a space;
`none` is the `EscapeError` returned when a `%` is not followed by two
hexadecimal digits. -/
def QueryUnescape : GoString → Option GoString
  | [] => some []
  | c :: rest =>
    if c = '%'.toNat then
      match rest with
      | a :: b :: rest2 =>
        if ishex a && ishex b then
          (QueryUnescape rest2).map (fun t => (unhex a * 16 + unhex b) :: t)
        else none
      | _ => none
    else if c = '+'.toNat then (QueryUnescape rest).map (fun t => ' '.toNat :: t)
    else (QueryUnescape rest).map (fun t => c :: t)

/-- `shouldEscape(c, encodeQueryComponent)` of `net/url`: everything is
escaped but the unreserved characters (letters, digits, `-`, `_`, `.`,
`~`). -/
def shouldEscape (c : Nat) : Bool :=
  if ('a'.toNat ≤ c && c ≤ 'z'.toNat) || ('A'.toNat ≤ c && c ≤ 'Z'.toNat) ||
      ('0'.toNat ≤ c && c ≤ '9'.toNat) then false
  else if c = '-'.toNat || c = '_'.toNat || c = '.'.toNat || c = '~'.toNat then false
  else true

/-- The table `upperhex = "0123456789ABCDEF"` of `net/url`, at index `n`. -/
def upperhex (n : Nat) : Nat :=
  if n < 10 then '0'.toNat + n else 'A'.toNat + (n - 10)

/-- `url.QueryEscape`: a space becomes `+`, any other byte that
`shouldEscape` becomes `%XX`. -/
def QueryEscape : GoString → GoString
  | [] => []
  | c :: rest =>
    if shouldEscape c then
      if c = ' '.toNat then '+'.toNat :: QueryEscape rest
      else '%'.toNat :: upperhex (c / 16) :: upperhex (c % 16) :: QueryEscape rest
    else c :: QueryEscape rest

/-- The pieces of `s` between the occurrences of the byte `sep`. -/
def splitOn (sep : Nat) : GoString → List GoString
  | [] => [[]]
  | c :: rest =>
    if c = sep then [] :: splitOn sep rest
    else
      match splitOn sep rest with
      | [] => [[c]]
      | seg :: segs => (c :: seg) :: segs

/-- `strings.Cut(s, sep)` for a one-byte separator: the text before and
after the first `sep` (all of `s` and the empty string when there is
none). -/
def cut (sep : Nat) : GoString → GoString × GoString
  | [] => ([], [])
  | c :: rest =>
    if c = sep then ([], rest)
    else let p := cut sep rest; (c :: p.1, p.2)

/-- `url.Values`, the Go map `map[string][]string`, as an association list
with one pair per key. -/
abbrev Values := List (GoString × List GoString)

/-- The Go map read `v[k]`: the values of `k`, `nil` when `k` is absent. -/
def Values.get (v : Values) (k : GoString) : List GoString :=
  match v with
  | [] => []
  | (k', vs) :: rest => if k' = k then vs else Values.get rest k

/-- The statement `m[key] = append(m[key], value)` of `parseQuery`. -/
def Values.add (v : Values) (key value : GoString) : Values :=
  match v with
  | [] => [(key, [value])]
  | (k', vs) :: rest =>
    if k' = key then (k', vs ++ [value]) :: rest
    else (k', vs) :: Values.add rest key value

/-- One turn of the loop of `parseQuery` of `net/url`, for the piece `seg`
of the query between two `&`: a piece that contains `;`, is empty, or whose
name or value does not unescape is skipped. -/
def parseSegment (seg : GoString) : Option (GoString × GoString) :=
  if ';'.toNat ∈ seg then none
  else if seg = [] then none
  else
    let kv := cut '='.toNat seg
    match QueryUnescape kv.1 with
    | none => none
    | some key =>
      match QueryUnescape kv.2 with
      | none => none
      | some value => some (key, value)

/-- The name-value pairs that `parseQuery` appends to the map, in the order
of the query. The loop of `parseQuery` cuts the query at each `&` and
handles the pieces from left to right. -/
def parsePairs (query : GoString) : List (GoString × GoString) :=
  (splitOn '&'.toNat query).filterMap parseSegment

/-- `url.ParseQuery` (the error result is dropped, as `URL.Query` does). -/
def ParseQuery (query : GoString) : Values :=
  (parsePairs query).foldl (fun m kv => Values.add m kv.1 kv.2) []

/-- Bytewise lexicographic order of Go strings (`a <= b`). -/
def strLe : GoString → GoString → Bool
  | [], _ => true
  | _ :: _, [] => false
  | a :: as, b :: bs => if a < b then true else if b < a then false else strLe as bs

/-- Insertion of `k` into a sorted list of strings. -/
def sortInsert (k : GoString) : List GoString → List GoString
  | [] => [k]
  | x :: xs => if strLe k x then k :: x :: xs else x :: sortInsert k xs

/-- `slices.Sort(keys)`: the keys in increasing order (insertion sort; the
keys of a map are distinct, so every sorting algorithm gives this list). -/
def sortStrings : List GoString → List GoString
  | [] => []
  | k :: ks => sortInsert k (sortStrings ks)

/-- The inner loop of `Values.Encode`: writes `key=value` for each value of
one key, with a `&` in front when the buffer is not empty. -/
def encodeValues (keyEscaped : GoString) (buf : GoString) : List GoString → GoString
  | [] => buf
  | v :: vs =>
    let buf1 := if buf.length > 0 then buf ++ [ '&'.toNat] else buf
    encodeValues keyEscaped (buf1 ++ keyEscaped ++ [ '='.toNat] ++ QueryEscape v) vs

/-- The outer loop of `Values.Encode` over the sorted keys. -/
def encodeKeys (v : Values) (buf : GoString) : List GoString → GoString
  | [] => buf
  | k :: ks => encodeKeys v (encodeValues (QueryEscape k) buf (Values.get v k)) ks

/-- `Values.Encode`: the "URL encoded" form `bar=baz&foo=quux`, sorted by
key. -/
def Values.Encode (v : Values) : GoString :=
  if v.length = 0 then []
  else encodeKeys v [] (sortStrings (v.map Prod.fst))

/-- `http.Request`, reduced to what the middleware reads: `r.Method`,
`r.URL.Path` and `r.URL.RawQuery`. -/
structure Request where
  Method : GoString
  Path : GoString
  RawQuery : GoString
deriving DecidableEq, Repr

/-- `r.URL.Query()`. -/
def Request.Query (r : Request) : Values := ParseQuery r.RawQuery

/-! ## Data model of the middleware -/

/-- Modelled from the spec: the type `CacheEntry`, whose declaration is not
in the source files at hand (`cache.go` only reads `e.StatusCode`). The spec
(section 3) gives it a status code, headers (an ordered mapping from a name
to its values) and a body. -/
structure CacheEntry where
  StatusCode : Int
  Header : List (GoString × List GoString)
  Body : Bytes
deriving DecidableEq, Repr

/-- Modelled from the spec: the `ResponseRecorder` of the capture proxy,
whose declaration is not in the source files at hand. The spec (section 4.3)
says that, once the handler has returned, it exposes the snapshot of what
the handler wrote; `snapshot` is that snapshot. -/
structure ResponseRecorder where
  snapshot : CacheEntry
deriving DecidableEq, Repr

/-- Modelled from the spec: `ResponseRecorder.Result`, the captured
snapshot. -/
def ResponseRecorder.Result (r : ResponseRecorder) : CacheEntry := r.snapshot

/-- `echo.Context` as the downstream handler sees it: the request, and
whether `c.Response().Writer` is the recorder installed by the middleware
(`true`) or the original writer (`false`). -/
structure Context where
  request : Request
  recording : Bool
deriving DecidableEq, Repr

/-- What a call `next(c)` does: the error it returns and what it wrote to
`c.Response().Writer` (status, headers, body). -/
structure HandlerResult where
  err : GoErr
  written : CacheEntry
deriving DecidableEq, Repr

/-- One call made by the middleware, with its arguments and its result. -/
inductive Event where
  /-- The call `m.cfg.Cache(r)` and its result. -/
  | cachePred (result : Bool)
  /-- The call `m.cfg.Refresh(r)` and its result. -/
  | refreshPred (result : Bool)
  /-- The log `Warnf("request with body are cached ignoring the content")`. -/
  | warnBody
  /-- The call `m.cache.Get(key)` and its two results. -/
  | get (key : Bytes) (value : Bytes) (err : GoErr)
  /-- The call `entry.Replay(c.Response())` and its result. -/
  | replay (entry : CacheEntry) (err : GoErr)
  /-- The log `Errorf("error reading cache: %s", err)`. -/
  | logReadError (err : GoError)
  /-- The assignment `c.Response().Writer = recorder`. -/
  | installRecorder
  /-- The call `next(c)`, with the writer that `c` holds at that time and
  the result of the call. -/
  | next (recording : Bool) (result : HandlerResult)
  /-- The call `m.cache.Set(key, value, ttl)` and its result. -/
  | set (key : Bytes) (value : Bytes) (ttl : Int) (err : GoErr)
  /-- The log `c.Logger().Error(err)`. -/
  | logError (err : GoError)
deriving DecidableEq, Repr

/-- The state around a run of the middleware: the state `S` of the store,
the state `U` of the application (the variables of the predicates and of
the handler, the connection to the client), and the calls made so far. -/
structure World (S U : Type) where
  store : S
  user : U
  trace : List Event

/-- The interface `Cache` of `cache.go`: the store, over its state `S`. -/
structure Cache (S : Type) where
  Set : Bytes → Bytes → Int → S → GoErr × S
  Get : Bytes → S → (Bytes × GoErr) × S

/-- The struct `Config`. `TTL` is a `time.Duration`, a number of
nanoseconds. `Refresh` and `Cache` are `none` when the field is `nil`; they
may read and change the state of the application. `GetNotFoundErr` is the
field as `New` leaves it, never a `nil` function; it is a Go function like
the two predicates, so it too may read and change the state of the
application (and return another error at each call), and the error it
returns may be `nil`. -/
structure Config (U : Type) where
  TTL : Int
  Methods : List GoString
  StatusCode : List Int
  IgnoreQuery : Bool
  Refresh : Option (Request → U → Bool × U)
  Cache : Option (Request → U → Bool × U)
  GetNotFoundErr : U → GoErr × U

/-- The functions called by `cache.go` that are declared elsewhere: the
codec of `CacheEntry` (`Encode`, `Decode`, `Replay`, not in the source files
at hand; `Replay` writes to the client), and `Seconds`, which stands for
the conversion `int(d.Seconds())` of a `time.Duration` (the function
`intSeconds` below computes it as Go does). -/
structure Deps (U : Type) where
  Encode : CacheEntry → Bytes × GoErr
  Decode : Bytes → CacheEntry × GoErr
  Replay : CacheEntry → U → GoErr × U
  Seconds : Int → Int

/-- The struct `CacheMiddleware`. -/
structure CacheMiddleware (S U : Type) where
  cfg : Config U
  cache : Cache S

/-- `echo.HandlerFunc` of the downstream handler `next`. -/
abbrev HandlerFunc (U : Type) := Context → U → HandlerResult × U

/-- Appends one event to the trace. -/
def World.emit {S U : Type} (w : World S U) (e : Event) : World S U :=
  { w with trace := w.trace ++ [e] }

/-! ## The functions of `cache.go` -/

/-- The function `mayHasBody`. -/
def mayHasBody (method : GoString) : Bool :=
  let m := method
  if m = str "POST" || m = str "PUT" || m = str "DELETE" || m = str "PATCH" then
    true
  else
    false

/-- The loop of `isStatusCacheable` over `m.cfg.StatusCode`. -/
def isStatusCacheable.loop (e : CacheEntry) : List Int → Bool
  | [] => false
  | status :: rest => if e.StatusCode = status then true else isStatusCacheable.loop e rest

/-- The method `isStatusCacheable`. -/
def isStatusCacheable {S U : Type} (m : CacheMiddleware S U) (e : CacheEntry) : Bool :=
  isStatusCacheable.loop e m.cfg.StatusCode

/-- The loop of `isCacheable` over `m.cfg.Methods`. -/
def isCacheable.loop (r : Request) : List GoString → Bool
  | [] => false
  | method :: rest => if r.Method = method then true else isCacheable.loop r rest

/-- The method `isCacheable`. -/
def isCacheable {S U : Type} (m : CacheMiddleware S U) (r : Request) (w : World S U) :
    Bool × World S U :=
  match m.cfg.Cache with
  | some f =>
    let p := f r w.user
    (p.1, { w with user := p.2, trace := w.trace ++ [Event.cachePred p.1] })
  | none => (isCacheable.loop r m.cfg.Methods, w)

/-- The method `getKey`. -/
def getKey {S U : Type} (m : CacheMiddleware S U) (r : Request) : Bytes :=
  let base := r.Method ++ str "|" ++ r.Path
  let base := if !m.cfg.IgnoreQuery then base ++ (str "|" ++ Values.Encode r.Query) else base
  base

/-- The condition `m.cfg.Refresh != nil && m.cfg.Refresh(c.Request())` of
`readCache`. -/
def refreshFires {S U : Type} (m : CacheMiddleware S U) (r : Request) (w : World S U) :
    Bool × World S U :=
  match m.cfg.Refresh with
  | none => (false, w)
  | some f =>
    let p := f r w.user
    (p.1, { w with user := p.2, trace := w.trace ++ [Event.refreshPred p.1] })

/-- The call `m.cfg.GetNotFoundErr()`: the error it returns, and the world
with the state of the application it leaves. -/
def callNotFound {S U : Type} (m : CacheMiddleware S U) (w : World S U) :
    GoErr × World S U :=
  let g := m.cfg.GetNotFoundErr w.user
  (g.1, { w with user := g.2 })

/-- The method `readCache`. -/
def readCache {S U : Type} (m : CacheMiddleware S U) (d : Deps U) (key : Bytes)
    (c : Context) (w : World S U) : GoErr × World S U :=
  let p := refreshFires m c.request w
  if p.1 then callNotFound m p.2
  else
    let w1 := p.2
    let g := m.cache.Get key w1.store
    let w2 : World S U :=
      { w1 with store := g.2, trace := w1.trace ++ [Event.get key g.1.1 g.1.2] }
    match g.1.2 with
    | some err => (some err, w2)
    | none =>
      let dec := d.Decode g.1.1
      match dec.2 with
      | some err => (some err, w2)
      | none =>
        let rp := d.Replay dec.1 w2.user
        (rp.1, { w2 with user := rp.2, trace := w2.trace ++ [Event.replay dec.1 rp.1] })

/-- The method `cacheResult`. -/
def cacheResult {S U : Type} (m : CacheMiddleware S U) (d : Deps U) (key : Bytes)
    (r : ResponseRecorder) (w : World S U) : GoErr × World S U :=
  let e := r.Result
  let enc := d.Encode e
  match enc.2 with
  | some err => (some (GoError.unableToRead err), w)
  | none =>
    if !isStatusCacheable m e then (none, w)
    else
      let ttl := d.Seconds m.cfg.TTL
      let s := m.cache.Set key enc.1 ttl w.store
      (s.1, { w with store := s.2, trace := w.trace ++ [Event.set key enc.1 ttl s.1] })

/-- The call `next(c)`: runs the handler on the state of the application
and records the call. -/
def callNext {S U : Type} (next : HandlerFunc U) (c : Context) (w : World S U) :
    HandlerResult × World S U :=
  let h := next c w.user
  (h.1, { w with user := h.2, trace := w.trace ++ [Event.next c.recording h.1] })

/-- The handler returned by the method `Handler` for the downstream handler
`next`, run on a request whose context holds the original writer. -/
def Handler {S U : Type} (m : CacheMiddleware S U) (d : Deps U) (next : HandlerFunc U)
    (r : Request) (w : World S U) : GoErr × World S U :=
  let c : Context := { request := r, recording := false }
  let pre := isCacheable m c.request w
  if !pre.1 then
    let h := callNext next c pre.2
    (h.1.err, h.2)
  else
    let w1 := if mayHasBody c.request.Method then pre.2.emit Event.warnBody else pre.2
    let key := getKey m c.request
    let rd := readCache m d key c w1
    match rd.1 with
    | none => (none, rd.2)
    | some err =>
      let nf := callNotFound m rd.2
      let w2 := if some err ≠ nf.1 then nf.2.emit (Event.logReadError err) else nf.2
      let c1 : Context := { c with recording := true }
      let w3 := w2.emit Event.installRecorder
      let h := callNext next c1 w3
      let recorder : ResponseRecorder := { snapshot := h.1.written }
      let cr := cacheResult m d key recorder h.2
      let w4 := match cr.1 with
        | some err2 => cr.2.emit (Event.logError err2)
        | none => cr.2
      (h.1.err, w4)

/-! ## The parts of `Handler`, named for the proofs -/

/-- The warning of `Handler` for a request whose method may have a body. -/
def Handler.warn {S U : Type} (c : Context) (w : World S U) : World S U :=
  if mayHasBody c.request.Method then w.emit Event.warnBody else w

/-- The miss path of `Handler` after the call of `m.cfg.GetNotFoundErr()`
(from the comparison with its result `nf` to the final `return err`),
entered with the non-nil error `err` returned by `readCache`. -/
def Handler.missFrom {S U : Type} (m : CacheMiddleware S U) (d : Deps U)
    (next : HandlerFunc U) (c : Context) (key : Bytes) (err : GoError) (nf : GoErr)
    (w : World S U) : GoErr × World S U :=
  let w2 := if some err ≠ nf then w.emit (Event.logReadError err) else w
  let c1 : Context := { c with recording := true }
  let w3 := w2.emit Event.installRecorder
  let h := callNext next c1 w3
  let recorder : ResponseRecorder := { snapshot := h.1.written }
  let cr := cacheResult m d key recorder h.2
  let w4 := match cr.1 with
    | some err2 => cr.2.emit (Event.logError err2)
    | none => cr.2
  (h.1.err, w4)

/-- The miss path of `Handler` (from the call of `m.cfg.GetNotFoundErr()` to
the final `return err`), entered with the non-nil error `err` returned by
`readCache`. -/
def Handler.miss {S U : Type} (m : CacheMiddleware S U) (d : Deps U) (next : HandlerFunc U)
    (c : Context) (key : Bytes) (err : GoError) (w : World S U) : GoErr × World S U :=
  Handler.missFrom m d next c key err (callNotFound m w).1 (callNotFound m w).2

/-! ## `New` and the defaults -/

/-- The value `freecache.ErrNotFound`. -/
def ErrNotFound : GoError := GoError.ext 0

/-- The function `defaultGetNotFoundErr`: it returns `freecache.ErrNotFound`
and changes nothing. -/
def defaultGetNotFoundErr {U : Type} (u : U) : GoErr × U := (some ErrNotFound, u)

/-- The struct `Config` as a caller of `New` fills it. A field the caller
left unset holds the zero value of its type: 0 for `TTL`, a slice of length
0 (the empty list) for `Methods` and `StatusCode`, false for `IgnoreQuery`,
and `nil` (`none`) for the three functions. -/
structure RawConfig (U : Type) where
  TTL : Int
  Methods : List GoString
  StatusCode : List Int
  IgnoreQuery : Bool
  Refresh : Option (Request → U → Bool × U)
  Cache : Option (Request → U → Bool × U)
  GetNotFoundErr : Option (U → GoErr × U)

/-- The value `&Config{}`: every field unset. -/
def RawConfig.zero (U : Type) : RawConfig U where
  TTL := 0
  Methods := []
  StatusCode := []
  IgnoreQuery := false
  Refresh := none
  Cache := none
  GetNotFoundErr := none

/-- `time.Second`, in nanoseconds. -/
def Second : Int := 1000000000

/-- `time.Minute`, in nanoseconds. -/
def Minute : Int := 60 * Second

/-- `defaults.SetDefaults(cfg)` of the library `go-defaults`, on a `Config`.
The library gives every field that is empty (a number equal to 0, a slice of
length 0) the value written in its struct tag: `default:"1m"` for `TTL`,
`default:"[GET]"` for `Methods`, `default:"[200,404]"` for `StatusCode`. The
other fields of `Config` have no tag and keep their value. -/
def SetDefaults {U : Type} (cfg : RawConfig U) : RawConfig U :=
  { cfg with
    TTL := if cfg.TTL = 0 then Minute else cfg.TTL
    Methods := if cfg.Methods.length = 0 then [str "GET"] else cfg.Methods
    StatusCode := if cfg.StatusCode.length = 0 then [200, 404] else cfg.StatusCode }

/-- The function `New`, up to the construction of `m`; the Go function
returns the method value `m.Handler`. `none` is the `nil` pointer. -/
def New {S U : Type} (cfg : Option (RawConfig U)) (cache : Cache S) : CacheMiddleware S U :=
  let cfg0 := match cfg with
    | none => RawConfig.zero U
    | some c => c
  let cfg1 := SetDefaults cfg0
  let notFound := match cfg1.GetNotFoundErr with
    | none => defaultGetNotFoundErr
    | some f => f
  { cfg :=
      { TTL := cfg1.TTL
        Methods := cfg1.Methods
        StatusCode := cfg1.StatusCode
        IgnoreQuery := cfg1.IgnoreQuery
        Refresh := cfg1.Refresh
        Cache := cfg1.Cache
        GetNotFoundErr := notFound }
    cache := cache }

/-! ## `time.Duration.Seconds` and the conversion to `int`

`cacheResult` passes `int(m.cfg.TTL.Seconds())` to the store. In the `time`
package

    func (d Duration) Seconds() float64 {
        sec := d / Second
        nsec := d % Second
        return float64(sec) + float64(nsec)/1e9
    }

The division and the sum are float64 operations: each gives the float64
nearest to the exact result, ties going to the even mantissa. They are
computed here with exact integer arithmetic. -/

/-- The integer nearest to `num / den`, ties going to the even one. -/
def roundHalfEven (num den : Nat) : Nat :=
  let q := num / den
  let r := num % den
  if 2 * r < den then q
  else if den < 2 * r then q + 1
  else if q % 2 = 0 then q
  else q + 1

/-- The least `k` from `k` on with `2^52 ≤ (a / b) * 2^k`, searched for
`fuel` steps. -/
def binadeShift (a b : Nat) : Nat → Nat → Nat
  | 0, k => k
  | fuel + 1, k => if 2 ^ 52 * b ≤ a * 2 ^ k then k else binadeShift a b fuel (k + 1)

/-- A float64 that is not negative and not above `2^53`, written
`num / 2^exp`. -/
structure F64 where
  num : Nat
  exp : Nat
deriving DecidableEq, Repr

/-- The float64 nearest to `a / b` (ties to even), for `a / b` below `2^53`
and not in the subnormal range: the mantissa is `a / b` scaled into
`[2^52, 2^53)` and rounded to an integer. -/
def roundF64 (a b : Nat) : F64 :=
  if a = 0 then { num := 0, exp := 0 }
  else
    let k := binadeShift a b 1100 0
    { num := roundHalfEven (a * 2 ^ k) b, exp := k }

/-- The conversion `int(x)` of a float64 that is not negative: the integer
part. -/
def F64.toInt (x : F64) : Nat := x.num / 2 ^ x.exp

/-- `d.Seconds()` for a duration `d` of at least 0 nanoseconds. -/
def secondsF64 (d : Nat) : F64 :=
  let sec := d / 1000000000
  let nsec := d % 1000000000
  let q := roundF64 nsec 1000000000
  roundF64 (sec * 2 ^ q.exp + q.num) (2 ^ q.exp)

/-- `int(d.Seconds())`. For a negative `d` the quotient and the remainder of
Go are the negated ones of `-d`, float64 rounding is symmetric and `int`
truncates toward zero, so the result is the negated one of `-d`. -/
def intSeconds (d : Int) : Int :=
  if 0 ≤ d then ((secondsF64 d.toNat).toInt : Int)
  else -((secondsF64 (-d).toNat).toInt : Int)

/-! ## Reading a trace -/

/-- A run starts with an empty trace. -/
def World.start {S U : Type} (s : S) (u : U) : World S U :=
  { store := s, user := u, trace := [] }

/-- Calls of the downstream handler. -/
def Event.isNext : Event → Bool
  | Event.next _ _ => true
  | _ => false

/-- Calls of the store's `Get`. -/
def Event.isGet : Event → Bool
  | Event.get _ _ _ => true
  | _ => false

/-- Calls of the store's `Set`. -/
def Event.isSet : Event → Bool
  | Event.set _ _ _ _ => true
  | _ => false

/-- Calls of `Replay`. -/
def Event.isReplay : Event → Bool
  | Event.replay _ _ => true
  | _ => false

/-- Installations of the response recorder. -/
def Event.isInstall : Event → Bool
  | Event.installRecorder => true
  | _ => false

/-- Log entries `error reading cache`. -/
def Event.isLogRead : Event → Bool
  | Event.logReadError _ => true
  | _ => false

/-- Evaluations of the `Cache` predicate. -/
def Event.isCachePred : Event → Bool
  | Event.cachePred _ => true
  | _ => false

/-- Evaluations of the `Refresh` predicate. -/
def Event.isRefreshPred : Event → Bool
  | Event.refreshPred _ => true
  | _ => false

/-- Events that are not an evaluation of one of the two predicates. -/
def Event.noPred (e : Event) : Prop :=
  e.isCachePred = false ∧ e.isRefreshPred = false

/-- The state in which `Handler` calls `readCache`: after the pre-check and
the warning. -/
def Handler.beforeRead {S U : Type} (m : CacheMiddleware S U) (r : Request) (s : S) (u : U) :
    World S U :=
  Handler.warn { request := r, recording := false } (isCacheable m r (World.start s u)).2

/-- The state in which `readCache` goes on after the test of `Refresh`. -/
def Handler.afterRefresh {S U : Type} (m : CacheMiddleware S U) (r : Request) (s : S)
    (u : U) : World S U :=
  (refreshFires m r (Handler.beforeRead m r s u)).2

/-! ## A concrete setting, after `cache_test.go` -/

/-- A store that keeps the pairs it was given, the latest first, and never
expires them. -/
def listStore : Cache (List (Bytes × Bytes)) where
  Set := fun k v _ s => (none, (k, v) :: s)
  Get := fun k s =>
    match s.lookup k with
    | some v => ((v, none), s)
    | none => (([], some ErrNotFound), s)

/-- The configuration with the documented defaults: one minute, `GET`, 200
and 404. -/
def testConfig : Config Nat where
  TTL := 60000000000
  Methods := [str "GET"]
  StatusCode := [200, 404]
  IgnoreQuery := false
  Refresh := none
  Cache := none
  GetNotFoundErr := defaultGetNotFoundErr

/-- The middleware of the tests. -/
def testMiddleware : CacheMiddleware (List (Bytes × Bytes)) Nat where
  cfg := testConfig
  cache := listStore

/-- A small codec for entries without headers: the status code, then the
body. Decoding an empty value fails. -/
def testDeps : Deps Nat where
  Encode := fun e => (e.StatusCode.toNat :: e.Body, none)
  Decode := fun b =>
    match b with
    | [] => ({ StatusCode := 0, Header := [], Body := [] }, some (GoError.ext 7))
    | c :: body => ({ StatusCode := c, Header := [], Body := body }, none)
  Replay := fun _ u => (none, u)
  Seconds := intSeconds

/-- The handler of `getCachedServerWithCode`: counts its calls in the state
and writes `status` and `test_N`. -/
def testHandler (status : Int) : HandlerFunc Nat := fun _ i =>
  ({ err := none,
     written := { StatusCode := status, Header := [],
                  Body := str "test_" ++ (Nat.toDigits 10 (i + 1)).map Char.toNat } },
    i + 1)

/-- The middleware of `TestCache_ConfigIgnoreQuery`: the defaults with
`IgnoreQuery` set. -/
def ignoreQueryMiddleware : CacheMiddleware (List (Bytes × Bytes)) Nat where
  cfg := { testConfig with IgnoreQuery := true }
  cache := listStore

/-- A store that holds the empty value, which `testDeps` cannot decode,
under the key of `GET /`. -/
def corruptStore : List (Bytes × Bytes) := [(str "GET|/|", [])]

/-- The defaults with a `Refresh` predicate that always answers true. -/
def refreshMiddleware : CacheMiddleware (List (Bytes × Bytes)) Nat where
  cfg := { testConfig with Refresh := some (fun _ u => (true, u)) }
  cache := listStore

/-- The defaults with a `Refresh` predicate that always answers true and a
`GetNotFoundErr` that returns `nil`. -/
def nilSentinelMiddleware : CacheMiddleware (List (Bytes × Bytes)) Nat where
  cfg := { testConfig with
    Refresh := some (fun _ u => (true, u))
    GetNotFoundErr := fun u => (none, u) }
  cache := listStore

/-- The defaults with a `Refresh` predicate that always answers true and a
`GetNotFoundErr` that builds a new error at each call: it numbers the errors
with the counter of the state. -/
def freshSentinelMiddleware : CacheMiddleware (List (Bytes × Bytes)) Nat where
  cfg := { testConfig with
    Refresh := some (fun _ u => (true, u))
    GetNotFoundErr := fun u => (some (GoError.ext (u + 1)), u + 1) }
  cache := listStore

/-- The middleware of the tests on a store whose `Set` always fails. -/
def failingSetMiddleware : CacheMiddleware (List (Bytes × Bytes)) Nat where
  cfg := testConfig
  cache := { listStore with Set := fun _ _ _ s => (some (GoError.ext 3), s) }

/-- The defaults with a `TTL` of `2^24` seconds and 999999999 nanoseconds,
a little more than 194 days. -/
def longTTLMiddleware : CacheMiddleware (List (Bytes × Bytes)) Nat where
  cfg := { testConfig with TTL := 16777216999999999 }
  cache := listStore

/-- The request `GET /`. -/
def getRoot : Request := { Method := str "GET", Path := str "/", RawQuery := [] }

/-! ## Theorems -/

theorem isCacheable_loop_eq (r : Request) (methods : List GoString) :
    isCacheable.loop r methods = decide (r.Method ∈ methods) := by
  induction methods with
  | nil => simp [isCacheable.loop]
  | cons a rest ih =>
    by_cases h : r.Method = a
    · simp [isCacheable.loop, h]
    · simp [isCacheable.loop, h, ih]

theorem isStatusCacheable_loop_eq (e : CacheEntry) (codes : List Int) :
    isStatusCacheable.loop e codes = decide (e.StatusCode ∈ codes) := by
  induction codes with
  | nil => simp [isStatusCacheable.loop]
  | cons a rest ih =>
    by_cases h : e.StatusCode = a
    · simp [isStatusCacheable.loop, h]
    · simp [isStatusCacheable.loop, h, ih]

/-- C2 (pre-check). `isCacheable` answers what the `Cache` predicate answers
when one is configured, and otherwise answers whether `r.Method` is an
element of `Methods`; with a `Cache` predicate configured, replacing
`Methods` by any other list `ms` changes neither the answer nor the state. -/
theorem isCacheable_precheck {S U : Type} (m : CacheMiddleware S U) (r : Request)
    (w : World S U) :
    (isCacheable m r w).1 =
        (match m.cfg.Cache with
         | some f => (f r w.user).1
         | none => decide (r.Method ∈ m.cfg.Methods)) ∧
      ∀ (f : Request → U → Bool × U) (ms : List GoString),
        isCacheable { m with cfg := { m.cfg with Cache := some f, Methods := ms } } r w =
            isCacheable { m with cfg := { m.cfg with Cache := some f } } r w ∧
          (isCacheable { m with cfg := { m.cfg with Cache := some f, Methods := ms } } r w).1 =
            (f r w.user).1 := by
  refine ⟨?_, fun f ms => ⟨rfl, rfl⟩⟩
  unfold isCacheable
  cases h : m.cfg.Cache with
  | some f => rfl
  | none => simp [isCacheable_loop_eq]

/-! ### The trace of each part of `Handler` -/

theorem isCacheable_store {S U : Type} (m : CacheMiddleware S U) (r : Request)
    (w : World S U) : (isCacheable m r w).2.store = w.store := by
  unfold isCacheable
  cases m.cfg.Cache <;> rfl

theorem isCacheable_filter {S U : Type} (m : CacheMiddleware S U) (r : Request)
    (w : World S U) (p : Event → Bool) (hp : ∀ b, p (Event.cachePred b) = false) :
    (isCacheable m r w).2.trace.filter p = w.trace.filter p := by
  unfold isCacheable
  cases m.cfg.Cache <;> simp [hp]

theorem warn_store {S U : Type} (c : Context) (w : World S U) :
    (Handler.warn c w).store = w.store := by
  unfold Handler.warn World.emit
  split <;> rfl

theorem warn_filter {S U : Type} (c : Context) (w : World S U) (p : Event → Bool)
    (hp : p Event.warnBody = false) :
    (Handler.warn c w).trace.filter p = w.trace.filter p := by
  unfold Handler.warn World.emit
  split <;> simp [hp]

theorem refreshFires_store {S U : Type} (m : CacheMiddleware S U) (r : Request)
    (w : World S U) : (refreshFires m r w).2.store = w.store := by
  unfold refreshFires
  cases m.cfg.Refresh <;> rfl

theorem refreshFires_filter {S U : Type} (m : CacheMiddleware S U) (r : Request)
    (w : World S U) (p : Event → Bool) (hp : ∀ b, p (Event.refreshPred b) = false) :
    (refreshFires m r w).2.trace.filter p = w.trace.filter p := by
  unfold refreshFires
  cases m.cfg.Refresh <;> simp [hp]

theorem readCache_of_refresh {S U : Type} (m : CacheMiddleware S U) (d : Deps U)
    (key : Bytes) (c : Context) (w : World S U)
    (h : (refreshFires m c.request w).1 = true) :
    readCache m d key c w = callNotFound m (refreshFires m c.request w).2 := by
  simp [readCache, h]

theorem readCache_filter {S U : Type} (m : CacheMiddleware S U) (d : Deps U)
    (key : Bytes) (c : Context) (w : World S U) (p : Event → Bool)
    (h1 : ∀ b, p (Event.refreshPred b) = false) (h2 : ∀ k v e, p (Event.get k v e) = false)
    (h3 : ∀ x e, p (Event.replay x e) = false) :
    (readCache m d key c w).2.trace.filter p = w.trace.filter p := by
  have hf := refreshFires_filter m c.request w p h1
  unfold readCache
  simp only []
  split
  · exact hf
  · split
    · simp [hf, h2]
    · split
      · simp [hf, h2]
      · simp [hf, h2, h3]

theorem missFrom_fst {S U : Type} (m : CacheMiddleware S U) (d : Deps U) (next : HandlerFunc U)
    (c : Context) (key : Bytes) (err : GoError) (nf : GoErr) (w : World S U) :
    (Handler.missFrom m d next c key err nf w).1 =
      (next { request := c.request, recording := true } w.user).1.err := by
  unfold Handler.missFrom callNext World.emit
  simp only []
  split <;> rfl

theorem cacheResult_filter {S U : Type} (m : CacheMiddleware S U) (d : Deps U)
    (key : Bytes) (r : ResponseRecorder) (w : World S U) (p : Event → Bool)
    (hp : ∀ k v t e, p (Event.set k v t e) = false) :
    (cacheResult m d key r w).2.trace.filter p = w.trace.filter p := by
  unfold cacheResult
  simp only []
  split
  · rfl
  · split
    · rfl
    · simp [hp]

theorem cacheResult_of_status {S U : Type} (m : CacheMiddleware S U) (d : Deps U)
    (key : Bytes) (r : ResponseRecorder) (w : World S U)
    (hEnc : (d.Encode r.Result).2 = none) (h : r.Result.StatusCode ∈ m.cfg.StatusCode) :
    cacheResult m d key r w =
      ((m.cache.Set key (d.Encode r.Result).1 (d.Seconds m.cfg.TTL) w.store).1,
        { store := (m.cache.Set key (d.Encode r.Result).1 (d.Seconds m.cfg.TTL) w.store).2,
          user := w.user,
          trace := w.trace ++ [Event.set key (d.Encode r.Result).1 (d.Seconds m.cfg.TTL)
            (m.cache.Set key (d.Encode r.Result).1 (d.Seconds m.cfg.TTL) w.store).1] }) := by
  simp [cacheResult, hEnc, isStatusCacheable, isStatusCacheable_loop_eq, h]

theorem cacheResult_of_not_status {S U : Type} (m : CacheMiddleware S U) (d : Deps U)
    (key : Bytes) (r : ResponseRecorder) (w : World S U)
    (h : r.Result.StatusCode ∉ m.cfg.StatusCode) :
    (cacheResult m d key r w).2 = w ∧
      ((d.Encode r.Result).2 = none → (cacheResult m d key r w).1 = none) := by
  unfold cacheResult
  simp only [isStatusCacheable, isStatusCacheable_loop_eq]
  cases hE : (d.Encode r.Result).2 with
  | some err => simp
  | none => simp [h]

theorem missFrom_filter {S U : Type} (m : CacheMiddleware S U) (d : Deps U) (next : HandlerFunc U)
    (c : Context) (key : Bytes) (err : GoError) (nf : GoErr) (w : World S U) (p : Event → Bool)
    (h1 : ∀ e, p (Event.logReadError e) = false) (h2 : p Event.installRecorder = false)
    (h3 : ∀ b x, p (Event.next b x) = false) (h4 : ∀ k v t e, p (Event.set k v t e) = false)
    (h5 : ∀ e, p (Event.logError e) = false) :
    (Handler.missFrom m d next c key err nf w).2.trace.filter p = w.trace.filter p := by
  unfold Handler.missFrom
  simp only []
  split
  · simp [World.emit, h5, cacheResult_filter _ _ _ _ _ p h4, callNext, h3, h2]
    split <;> simp [h1]
  · simp [World.emit, cacheResult_filter _ _ _ _ _ p h4, callNext, h3, h2]
    split <;> simp [h1]

theorem missFrom_filter_next {S U : Type} (m : CacheMiddleware S U) (d : Deps U)
    (next : HandlerFunc U) (c : Context) (key : Bytes) (err : GoError) (nf : GoErr) (w : World S U) :
    (Handler.missFrom m d next c key err nf w).2.trace.filter Event.isNext =
      w.trace.filter Event.isNext ++
        [Event.next true (next { request := c.request, recording := true } w.user).1] := by
  unfold Handler.missFrom
  simp only []
  split
  · simp [World.emit, cacheResult_filter _ _ _ _ _ Event.isNext (fun _ _ _ _ => rfl), callNext,
      Event.isNext]
    split <;> simp [Event.isNext]
  · simp [World.emit, cacheResult_filter _ _ _ _ _ Event.isNext (fun _ _ _ _ => rfl), callNext,
      Event.isNext]
    split <;> simp [Event.isNext]

theorem missFrom_filter_install {S U : Type} (m : CacheMiddleware S U) (d : Deps U)
    (next : HandlerFunc U) (c : Context) (key : Bytes) (err : GoError) (nf : GoErr) (w : World S U) :
    (Handler.missFrom m d next c key err nf w).2.trace.filter Event.isInstall =
      w.trace.filter Event.isInstall ++ [Event.installRecorder] := by
  unfold Handler.missFrom
  simp only []
  split
  · simp [World.emit, cacheResult_filter _ _ _ _ _ Event.isInstall (fun _ _ _ _ => rfl),
      callNext, Event.isInstall]
    split <;> simp [Event.isInstall]
  · simp [World.emit, cacheResult_filter _ _ _ _ _ Event.isInstall (fun _ _ _ _ => rfl),
      callNext, Event.isInstall]
    split <;> simp [Event.isInstall]

theorem missFrom_filter_logRead {S U : Type} (m : CacheMiddleware S U) (d : Deps U)
    (next : HandlerFunc U) (c : Context) (key : Bytes) (err : GoError) (nf : GoErr) (w : World S U) :
    (Handler.missFrom m d next c key err nf w).2.trace.filter Event.isLogRead =
      w.trace.filter Event.isLogRead ++
        (if some err ≠ nf then [Event.logReadError err] else []) := by
  unfold Handler.missFrom
  simp only []
  split
  · simp [World.emit, cacheResult_filter _ _ _ _ _ Event.isLogRead (fun _ _ _ _ => rfl),
      callNext, Event.isLogRead]
    split <;> simp [Event.isLogRead]
  · simp [World.emit, cacheResult_filter _ _ _ _ _ Event.isLogRead (fun _ _ _ _ => rfl),
      callNext, Event.isLogRead]
    split <;> simp [Event.isLogRead]

theorem missFrom_set_of_not_status {S U : Type} (m : CacheMiddleware S U) (d : Deps U)
    (next : HandlerFunc U) (c : Context) (key : Bytes) (err : GoError) (nf : GoErr) (w : World S U)
    (h : (next { request := c.request, recording := true } w.user).1.written.StatusCode ∉
      m.cfg.StatusCode) :
    (Handler.missFrom m d next c key err nf w).2.trace.filter Event.isSet =
        w.trace.filter Event.isSet ∧
      (Handler.missFrom m d next c key err nf w).2.store = w.store := by
  unfold Handler.missFrom
  simp only []
  have hw := fun (w3 : World S U)
      (hu : w3.user = w.user) => (cacheResult_of_not_status m d key
    { snapshot := (callNext next { request := c.request, recording := true } w3).1.written }
    (callNext next { request := c.request, recording := true } w3).2
    (by simpa [callNext, ResponseRecorder.Result, hu] using h)).1
  split
  · rw [hw _ (by split <;> rfl)]
    simp [World.emit, callNext, Event.isSet]
    split <;> simp [Event.isSet]
  · rw [hw _ (by split <;> rfl)]
    simp [World.emit, callNext, Event.isSet]
    split <;> simp [Event.isSet]

theorem missFrom_set_of_status {S U : Type} (m : CacheMiddleware S U) (d : Deps U)
    (next : HandlerFunc U) (c : Context) (key : Bytes) (err : GoError) (nf : GoErr) (w : World S U)
    (hEnc : (d.Encode (next { request := c.request, recording := true } w.user).1.written).2 =
      none)
    (h : (next { request := c.request, recording := true } w.user).1.written.StatusCode ∈
      m.cfg.StatusCode) :
    (Handler.missFrom m d next c key err nf w).2.trace.filter Event.isSet =
        w.trace.filter Event.isSet ++
          [Event.set key
            (d.Encode (next { request := c.request, recording := true } w.user).1.written).1
            (d.Seconds m.cfg.TTL)
            (m.cache.Set key
              (d.Encode (next { request := c.request, recording := true } w.user).1.written).1
              (d.Seconds m.cfg.TTL) w.store).1] ∧
      (Handler.missFrom m d next c key err nf w).2.store =
        (m.cache.Set key
          (d.Encode (next { request := c.request, recording := true } w.user).1.written).1
          (d.Seconds m.cfg.TTL) w.store).2 := by
  unfold Handler.missFrom
  simp only []
  have hw := fun (w3 : World S U) (hu : w3.user = w.user) =>
    cacheResult_of_status m d key
      { snapshot := (callNext next { request := c.request, recording := true } w3).1.written }
      (callNext next { request := c.request, recording := true } w3).2
      (by simpa [callNext, ResponseRecorder.Result, hu] using hEnc)
      (by simpa [callNext, ResponseRecorder.Result, hu] using h)
  rw [hw _ (by split <;> rfl)]
  simp only [callNext, World.emit, ResponseRecorder.Result]
  by_cases hs : some err = nf
  · simp only [hs, ne_eq, not_true_eq_false, if_false]
    split <;> simp [Event.isSet]
  · simp only [hs, ne_eq, not_false_eq_true, if_true]
    split <;> simp [Event.isSet]

theorem miss_fst {S U : Type} (m : CacheMiddleware S U) (d : Deps U) (next : HandlerFunc U)
    (c : Context) (key : Bytes) (err : GoError) (w : World S U) :
    (Handler.miss m d next c key err w).1 =
      (next { request := c.request, recording := true }
        (m.cfg.GetNotFoundErr w.user).2).1.err :=
  missFrom_fst m d next c key err _ _

theorem miss_filter {S U : Type} (m : CacheMiddleware S U) (d : Deps U) (next : HandlerFunc U)
    (c : Context) (key : Bytes) (err : GoError) (w : World S U) (p : Event → Bool)
    (h1 : ∀ e, p (Event.logReadError e) = false) (h2 : p Event.installRecorder = false)
    (h3 : ∀ b x, p (Event.next b x) = false) (h4 : ∀ k v t e, p (Event.set k v t e) = false)
    (h5 : ∀ e, p (Event.logError e) = false) :
    (Handler.miss m d next c key err w).2.trace.filter p = w.trace.filter p :=
  missFrom_filter m d next c key err _ _ p h1 h2 h3 h4 h5

theorem miss_filter_next {S U : Type} (m : CacheMiddleware S U) (d : Deps U)
    (next : HandlerFunc U) (c : Context) (key : Bytes) (err : GoError) (w : World S U) :
    (Handler.miss m d next c key err w).2.trace.filter Event.isNext =
      w.trace.filter Event.isNext ++
        [Event.next true (next { request := c.request, recording := true }
          (m.cfg.GetNotFoundErr w.user).2).1] :=
  missFrom_filter_next m d next c key err _ _

theorem miss_filter_install {S U : Type} (m : CacheMiddleware S U) (d : Deps U)
    (next : HandlerFunc U) (c : Context) (key : Bytes) (err : GoError) (w : World S U) :
    (Handler.miss m d next c key err w).2.trace.filter Event.isInstall =
      w.trace.filter Event.isInstall ++ [Event.installRecorder] :=
  missFrom_filter_install m d next c key err _ _

theorem miss_filter_logRead {S U : Type} (m : CacheMiddleware S U) (d : Deps U)
    (next : HandlerFunc U) (c : Context) (key : Bytes) (err : GoError) (w : World S U) :
    (Handler.miss m d next c key err w).2.trace.filter Event.isLogRead =
      w.trace.filter Event.isLogRead ++
        (if some err ≠ (m.cfg.GetNotFoundErr w.user).1 then [Event.logReadError err]
         else []) :=
  missFrom_filter_logRead m d next c key err _ _

theorem miss_set_of_not_status {S U : Type} (m : CacheMiddleware S U) (d : Deps U)
    (next : HandlerFunc U) (c : Context) (key : Bytes) (err : GoError) (w : World S U)
    (h : (next { request := c.request, recording := true }
      (m.cfg.GetNotFoundErr w.user).2).1.written.StatusCode ∉ m.cfg.StatusCode) :
    (Handler.miss m d next c key err w).2.trace.filter Event.isSet =
        w.trace.filter Event.isSet ∧
      (Handler.miss m d next c key err w).2.store = w.store :=
  missFrom_set_of_not_status m d next c key err _ (callNotFound m w).2 h

theorem miss_set_of_status {S U : Type} (m : CacheMiddleware S U) (d : Deps U)
    (next : HandlerFunc U) (c : Context) (key : Bytes) (err : GoError) (w : World S U)
    (hEnc : (d.Encode (next { request := c.request, recording := true }
      (m.cfg.GetNotFoundErr w.user).2).1.written).2 = none)
    (h : (next { request := c.request, recording := true }
      (m.cfg.GetNotFoundErr w.user).2).1.written.StatusCode ∈ m.cfg.StatusCode) :
    (Handler.miss m d next c key err w).2.trace.filter Event.isSet =
        w.trace.filter Event.isSet ++
          [Event.set key
            (d.Encode (next { request := c.request, recording := true }
              (m.cfg.GetNotFoundErr w.user).2).1.written).1
            (d.Seconds m.cfg.TTL)
            (m.cache.Set key
              (d.Encode (next { request := c.request, recording := true }
                (m.cfg.GetNotFoundErr w.user).2).1.written).1
              (d.Seconds m.cfg.TTL) w.store).1] ∧
      (Handler.miss m d next c key err w).2.store =
        (m.cache.Set key
          (d.Encode (next { request := c.request, recording := true }
            (m.cfg.GetNotFoundErr w.user).2).1.written).1
          (d.Seconds m.cfg.TTL) w.store).2 :=
  missFrom_set_of_status m d next c key err _ (callNotFound m w).2 hEnc h

theorem Handler_of_not_cacheable {S U : Type} (m : CacheMiddleware S U) (d : Deps U)
    (next : HandlerFunc U) (r : Request) (w : World S U)
    (h : (isCacheable m r w).1 = false) :
    Handler m d next r w =
      ((callNext next { request := r, recording := false } (isCacheable m r w).2).1.err,
        (callNext next { request := r, recording := false } (isCacheable m r w).2).2) := by
  simp [Handler, h]

theorem Handler_of_cacheable {S U : Type} (m : CacheMiddleware S U) (d : Deps U)
    (next : HandlerFunc U) (r : Request) (w : World S U)
    (h : (isCacheable m r w).1 = true) :
    Handler m d next r w =
      (match (readCache m d (getKey m r) { request := r, recording := false }
          (Handler.warn { request := r, recording := false } (isCacheable m r w).2)).1 with
       | none => (none, (readCache m d (getKey m r) { request := r, recording := false }
          (Handler.warn { request := r, recording := false } (isCacheable m r w).2)).2)
       | some err => Handler.miss m d next { request := r, recording := false } (getKey m r) err
          (readCache m d (getKey m r) { request := r, recording := false }
            (Handler.warn { request := r, recording := false } (isCacheable m r w).2)).2) := by
  unfold Handler
  simp only [h, Bool.not_true, Bool.false_eq_true, if_false]
  rfl

theorem readCache_of_get_err {S U : Type} (m : CacheMiddleware S U) (d : Deps U)
    (key : Bytes) (c : Context) (w : World S U) (e : GoError)
    (h : (refreshFires m c.request w).1 = false)
    (hg : (m.cache.Get key w.store).1.2 = some e) :
    (readCache m d key c w).1 = some e ∧
      (readCache m d key c w).2.user = (refreshFires m c.request w).2.user ∧
      (readCache m d key c w).2.store = (m.cache.Get key w.store).2 ∧
      (readCache m d key c w).2.trace = (refreshFires m c.request w).2.trace ++
        [Event.get key (m.cache.Get key w.store).1.1 (some e)] := by
  have hs := refreshFires_store m c.request w
  simp [readCache, h, hs, hg]

theorem readCache_of_decode_err {S U : Type} (m : CacheMiddleware S U) (d : Deps U)
    (key : Bytes) (c : Context) (w : World S U) (e : GoError)
    (h : (refreshFires m c.request w).1 = false)
    (hg : (m.cache.Get key w.store).1.2 = none)
    (hd : (d.Decode (m.cache.Get key w.store).1.1).2 = some e) :
    (readCache m d key c w).1 = some e ∧
      (readCache m d key c w).2.user = (refreshFires m c.request w).2.user ∧
      (readCache m d key c w).2.store = (m.cache.Get key w.store).2 ∧
      (readCache m d key c w).2.trace = (refreshFires m c.request w).2.trace ++
        [Event.get key (m.cache.Get key w.store).1.1 none] := by
  have hs := refreshFires_store m c.request w
  simp [readCache, h, hs, hg, hd]

theorem readCache_of_replay {S U : Type} (m : CacheMiddleware S U) (d : Deps U)
    (key : Bytes) (c : Context) (w : World S U)
    (h : (refreshFires m c.request w).1 = false)
    (hg : (m.cache.Get key w.store).1.2 = none)
    (hd : (d.Decode (m.cache.Get key w.store).1.1).2 = none) :
    (readCache m d key c w).1 =
        (d.Replay (d.Decode (m.cache.Get key w.store).1.1).1
          (refreshFires m c.request w).2.user).1 ∧
      (readCache m d key c w).2.store = (m.cache.Get key w.store).2 ∧
      (readCache m d key c w).2.trace = (refreshFires m c.request w).2.trace ++
        [Event.get key (m.cache.Get key w.store).1.1 none,
          Event.replay (d.Decode (m.cache.Get key w.store).1.1).1
            (d.Replay (d.Decode (m.cache.Get key w.store).1.1).1
              (refreshFires m c.request w).2.user).1] := by
  have hs := refreshFires_store m c.request w
  simp [readCache, h, hs, hg, hd]

theorem beforeRead_store {S U : Type} (m : CacheMiddleware S U) (r : Request) (s : S)
    (u : U) : (Handler.beforeRead m r s u).store = s := by
  simp [Handler.beforeRead, warn_store, isCacheable_store, World.start]

theorem beforeRead_filter {S U : Type} (m : CacheMiddleware S U) (r : Request) (s : S)
    (u : U) (p : Event → Bool) (h1 : ∀ b, p (Event.cachePred b) = false)
    (h2 : p Event.warnBody = false) :
    (Handler.beforeRead m r s u).trace.filter p = [] := by
  simp [Handler.beforeRead, warn_filter _ _ p h2, isCacheable_filter _ _ _ p h1, World.start]

theorem afterRefresh_store {S U : Type} (m : CacheMiddleware S U) (r : Request) (s : S)
    (u : U) : (Handler.afterRefresh m r s u).store = s := by
  simp [Handler.afterRefresh, refreshFires_store, beforeRead_store]

theorem afterRefresh_filter {S U : Type} (m : CacheMiddleware S U) (r : Request) (s : S)
    (u : U) (p : Event → Bool) (h1 : ∀ b, p (Event.cachePred b) = false)
    (h2 : p Event.warnBody = false) (h3 : ∀ b, p (Event.refreshPred b) = false) :
    (Handler.afterRefresh m r s u).trace.filter p = [] := by
  simp [Handler.afterRefresh, refreshFires_filter _ _ _ p h3, beforeRead_filter _ _ _ _ p h1 h2]

theorem Handler_eligible {S U : Type} (m : CacheMiddleware S U) (d : Deps U)
    (next : HandlerFunc U) (r : Request) (s : S) (u : U)
    (h : (isCacheable m r (World.start s u)).1 = true) :
    Handler m d next r (World.start s u) =
      (match (readCache m d (getKey m r) { request := r, recording := false }
          (Handler.beforeRead m r s u)).1 with
       | none => (none, (readCache m d (getKey m r) { request := r, recording := false }
          (Handler.beforeRead m r s u)).2)
       | some err => Handler.miss m d next { request := r, recording := false } (getKey m r) err
          (readCache m d (getKey m r) { request := r, recording := false }
            (Handler.beforeRead m r s u)).2) := by
  rw [Handler_of_cacheable m d next r _ h]
  rfl

theorem Handler_no_set_of_status {S U : Type} (m : CacheMiddleware S U) (d : Deps U)
    (next : HandlerFunc U) (r : Request) (s : S) (u : U)
    (h : ∀ (c : Context) (u1 : U), (next c u1).1.written.StatusCode ∉ m.cfg.StatusCode) :
    (Handler m d next r (World.start s u)).2.trace.filter Event.isSet = [] := by
  cases hpre : (isCacheable m r (World.start s u)).1 with
  | false =>
    rw [Handler_of_not_cacheable m d next r _ hpre]
    simp [callNext, isCacheable_filter _ _ _ Event.isSet (fun _ => rfl), World.start,
      Event.isSet]
  | true =>
    rw [Handler_eligible m d next r s u hpre]
    have hrd := readCache_filter m d (getKey m r) { request := r, recording := false }
      (Handler.beforeRead m r s u) Event.isSet (fun _ => rfl) (fun _ _ _ => rfl)
      (fun _ _ => rfl)
    rw [beforeRead_filter m r s u Event.isSet (fun _ => rfl) rfl] at hrd
    split
    · exact hrd
    · rw [(miss_set_of_not_status m d next _ _ _ _ (h _ _)).1]
      exact hrd

/-- C3 (post-check). For a snapshot that `Encode` encodes without error,
`cacheResult` calls the store's `Set` if and only if the status code of the
snapshot is an element of `StatusCode`: when it is, the one call is
`Set(key, Encode(e), Seconds(TTL))` on the current store and its result is
returned; when it is not, `cacheResult` returns `nil` and leaves the store
and the trace as they were. A handler whose status is never in `StatusCode`
never causes a `Set` in a run of `Handler`. -/
theorem cacheResult_postcheck {S U : Type} (m : CacheMiddleware S U) (d : Deps U)
    (key : Bytes) (r : ResponseRecorder) (w : World S U)
    (hEnc : (d.Encode r.Result).2 = none) :
    ((∃ v t e, (cacheResult m d key r w).2.trace = w.trace ++ [Event.set key v t e]) ↔
        r.Result.StatusCode ∈ m.cfg.StatusCode) ∧
      (r.Result.StatusCode ∈ m.cfg.StatusCode →
        cacheResult m d key r w =
          ((m.cache.Set key (d.Encode r.Result).1 (d.Seconds m.cfg.TTL) w.store).1,
            { store := (m.cache.Set key (d.Encode r.Result).1 (d.Seconds m.cfg.TTL) w.store).2,
              user := w.user,
              trace := w.trace ++ [Event.set key (d.Encode r.Result).1 (d.Seconds m.cfg.TTL)
                (m.cache.Set key (d.Encode r.Result).1 (d.Seconds m.cfg.TTL) w.store).1] })) ∧
      (r.Result.StatusCode ∉ m.cfg.StatusCode → cacheResult m d key r w = (none, w)) ∧
      ∀ (next : HandlerFunc U) (req : Request) (s : S) (u : U),
        (∀ (c : Context) (u1 : U), (next c u1).1.written.StatusCode ∉ m.cfg.StatusCode) →
          (Handler m d next req (World.start s u)).2.trace.filter Event.isSet = [] := by
  refine ⟨⟨?_, ?_⟩, cacheResult_of_status m d key r w hEnc, ?_, ?_⟩
  · rintro ⟨v, t, e, hv⟩
    by_contra hn
    rw [(cacheResult_of_not_status m d key r w hn).1] at hv
    have := congrArg List.length hv
    simp at this
  · intro hs
    rw [cacheResult_of_status m d key r w hEnc hs]
    exact ⟨_, _, _, rfl⟩
  · intro hn
    have h := cacheResult_of_not_status m d key r w hn
    exact Prod.ext (h.2 hEnc) h.1
  · intro next req s u h
    exact Handler_no_set_of_status m d next req s u h

/-- C3, at the recorder of a response with status 500 under the default
`StatusCode` list: nothing is written and no error is returned. -/
theorem cacheResult_postcheck_witness :
    cacheResult testMiddleware testDeps (str "GET|/|")
        { snapshot := { StatusCode := 500, Header := [], Body := str "test_1" } }
        (World.start [] 0) = (none, World.start [] 0) :=
  (cacheResult_postcheck testMiddleware testDeps (str "GET|/|")
    { snapshot := { StatusCode := 500, Header := [], Body := str "test_1" } }
    (World.start [] 0) rfl).2.2.1 (by decide)

/-- C5 (passthrough). When the pre-check answers false, `Handler` calls the
downstream handler exactly once, on the context with the original writer and
in the state left by the pre-check, and that call is all it does after the
pre-check: no `Get`, no `Set`, no recorder installed, the store untouched;
it returns the handler's result. -/
theorem Handler_passthrough {S U : Type} (m : CacheMiddleware S U) (d : Deps U)
    (next : HandlerFunc U) (r : Request) (s : S) (u : U)
    (h : (isCacheable m r (World.start s u)).1 = false) :
    (Handler m d next r (World.start s u)).1 =
        (next { request := r, recording := false }
          (isCacheable m r (World.start s u)).2.user).1.err ∧
      (Handler m d next r (World.start s u)).2.trace =
        (isCacheable m r (World.start s u)).2.trace ++
          [Event.next false (next { request := r, recording := false }
            (isCacheable m r (World.start s u)).2.user).1] ∧
      (Handler m d next r (World.start s u)).2.trace.filter Event.isNext =
        [Event.next false (next { request := r, recording := false }
          (isCacheable m r (World.start s u)).2.user).1] ∧
      (Handler m d next r (World.start s u)).2.trace.filter Event.isGet = [] ∧
      (Handler m d next r (World.start s u)).2.trace.filter Event.isSet = [] ∧
      (Handler m d next r (World.start s u)).2.trace.filter Event.isInstall = [] ∧
      (Handler m d next r (World.start s u)).2.store = s ∧
      (Handler m d next r (World.start s u)).2.user =
        (next { request := r, recording := false }
          (isCacheable m r (World.start s u)).2.user).2 := by
  rw [Handler_of_not_cacheable m d next r _ h]
  refine ⟨rfl, rfl, ?_, ?_, ?_, ?_, ?_, rfl⟩
  · simp [callNext, isCacheable_filter _ _ _ Event.isNext (fun _ => rfl), World.start,
      Event.isNext]
  · simp [callNext, isCacheable_filter _ _ _ Event.isGet (fun _ => rfl), World.start,
      Event.isGet]
  · simp [callNext, isCacheable_filter _ _ _ Event.isSet (fun _ => rfl), World.start,
      Event.isSet]
  · simp [callNext, isCacheable_filter _ _ _ Event.isInstall (fun _ => rfl), World.start,
      Event.isInstall]
  · simp [callNext, isCacheable_store, World.start]

/-- C5, at a `PUT /` request under the default configuration: the only call
is the one of the handler, with the original writer. -/
theorem Handler_passthrough_witness :
    (Handler testMiddleware testDeps (testHandler 200)
        { Method := str "PUT", Path := str "/", RawQuery := [] } (World.start [] 0)).2.trace =
      [Event.next false
        { err := none,
          written := { StatusCode := 200, Header := [], Body := str "test_1" } }] :=
  (Handler_passthrough testMiddleware testDeps (testHandler 200)
    { Method := str "PUT", Path := str "/", RawQuery := [] } [] 0 (by decide)).2.1

/-! ### The order of the keys in `Values.Encode` -/

theorem strLe_total (a b : GoString) : strLe a b = true ∨ strLe b a = true := by
  induction a generalizing b with
  | nil => simp [strLe]
  | cons x xs ih =>
    cases b with
    | nil => simp [strLe]
    | cons y ys =>
      simp only [strLe]
      rcases Nat.lt_trichotomy x y with h | h | h
      · simp [h]
      · subst h
        simpa using ih ys
      · simp [h]

theorem strLe_antisymm (a b : GoString) (h1 : strLe a b = true) (h2 : strLe b a = true) :
    a = b := by
  induction a generalizing b with
  | nil =>
    cases b with
    | nil => rfl
    | cons y ys => simp [strLe] at h2
  | cons x xs ih =>
    cases b with
    | nil => simp [strLe] at h1
    | cons y ys =>
      simp only [strLe] at h1 h2
      rcases Nat.lt_trichotomy x y with h | h | h
      · have hn : ¬ y < x := by omega
        simp [h, hn] at h2
      · subst h
        simp at h1 h2
        rw [ih ys h1 h2]
      · have hn : ¬ x < y := by omega
        simp [h, hn] at h1

theorem strLe_trans (a b c : GoString) (h1 : strLe a b = true) (h2 : strLe b c = true) :
    strLe a c = true := by
  induction a generalizing b c with
  | nil => simp [strLe]
  | cons x xs ih =>
    cases b with
    | nil => simp [strLe] at h1
    | cons y ys =>
      cases c with
      | nil => simp [strLe] at h2
      | cons z zs =>
        simp only [strLe] at h1 h2 ⊢
        rcases Nat.lt_trichotomy x y with h | h | h
        · rcases Nat.lt_trichotomy y z with g | g | g
          · have : x < z := by omega
            simp [this]
          · subst g
            simp [h]
          · have hn : ¬ y < z := by omega
            simp [g, hn] at h2
        · subst h
          rcases Nat.lt_trichotomy x z with g | g | g
          · simp [g]
          · subst g
            simp at h1 h2 ⊢
            exact ih ys zs h1 h2
          · have hn : ¬ x < z := by omega
            simp [g, hn] at h2
        · have hn : ¬ x < y := by omega
          simp [h, hn] at h1

theorem sortInsert_eq (k : GoString) (l : List GoString) :
    sortInsert k l = List.orderedInsert (fun a b => strLe a b = true) k l := by
  induction l with
  | nil => rfl
  | cons x xs ih => simp [sortInsert, List.orderedInsert, ih]

theorem sortStrings_eq (l : List GoString) :
    sortStrings l = List.insertionSort (fun a b => strLe a b = true) l := by
  induction l with
  | nil => rfl
  | cons x xs ih => simp [sortStrings, List.insertionSort, ih, sortInsert_eq]

theorem sortStrings_perm (l1 l2 : List GoString) (h : l1.Perm l2) :
    sortStrings l1 = sortStrings l2 := by
  haveI : IsTotal GoString (fun a b => strLe a b = true) := ⟨strLe_total⟩
  haveI : IsTrans GoString (fun a b => strLe a b = true) := ⟨strLe_trans⟩
  haveI : IsAntisymm GoString (fun a b => strLe a b = true) := ⟨strLe_antisymm⟩
  rw [sortStrings_eq, sortStrings_eq]
  apply List.eq_of_perm_of_sorted (r := fun a b => strLe a b = true)
  · exact ((List.perm_insertionSort _ l1).trans h).trans (List.perm_insertionSort _ l2).symm
  · exact List.sorted_insertionSort _ l1
  · exact List.sorted_insertionSort _ l2

/-! ### The map built by `ParseQuery` -/

theorem Values.get_add (v : Values) (key value k : GoString) :
    Values.get (Values.add v key value) k =
      if key = k then Values.get v k ++ [value] else Values.get v k := by
  induction v with
  | nil => simp [Values.add, Values.get]
  | cons p rest ih =>
    obtain ⟨k1, vs⟩ := p
    by_cases h1 : k1 = key
    · subst h1
      by_cases h2 : k1 = k
      · simp [Values.add, Values.get, h2]
      · simp [Values.add, Values.get, h2]
    · by_cases h2 : key = k
      · subst h2
        simp [Values.add, Values.get, h1, ih]
      · simp [Values.add, Values.get, h1, h2, ih]

theorem Values.get_foldl (pairs : List (GoString × GoString)) (acc : Values) (k : GoString) :
    Values.get (pairs.foldl (fun m kv => Values.add m kv.1 kv.2) acc) k =
      Values.get acc k ++ (pairs.filter (fun p => p.1 = k)).map Prod.snd := by
  induction pairs generalizing acc with
  | nil => simp
  | cons p rest ih =>
    simp only [List.foldl_cons, ih, Values.get_add]
    by_cases h : p.1 = k
    · simp [h]
    · simp [h]

theorem Values.keys_add (v : Values) (key value : GoString) :
    (Values.add v key value).map Prod.fst =
      if key ∈ v.map Prod.fst then v.map Prod.fst else v.map Prod.fst ++ [key] := by
  induction v with
  | nil => simp [Values.add]
  | cons p rest ih =>
    obtain ⟨k1, vs⟩ := p
    by_cases h1 : k1 = key
    · subst h1
      simp [Values.add]
    · have h2 : ¬ key = k1 := fun h => h1 h.symm
      simp only [Values.add, h1, if_false, List.map_cons, ih, List.mem_cons, h2, false_or]
      split <;> simp

theorem Values.keys_foldl (pairs : List (GoString × GoString)) (acc : Values)
    (h : (acc.map Prod.fst).Nodup) :
    ((pairs.foldl (fun m kv => Values.add m kv.1 kv.2) acc).map Prod.fst).Nodup ∧
      ∀ k, k ∈ (pairs.foldl (fun m kv => Values.add m kv.1 kv.2) acc).map Prod.fst ↔
        k ∈ acc.map Prod.fst ∨ k ∈ pairs.map Prod.fst := by
  induction pairs generalizing acc with
  | nil => simp [h]
  | cons p rest ih =>
    have hn : ((Values.add acc p.1 p.2).map Prod.fst).Nodup := by
      rw [Values.keys_add]
      split
      · exact h
      · rename_i hmem
        exact List.Nodup.append h (List.nodup_singleton _) (by simpa using hmem)
    obtain ⟨h1, h2⟩ := ih (Values.add acc p.1 p.2) hn
    refine ⟨h1, fun k => ?_⟩
    simp only [List.foldl_cons]
    rw [h2 k, Values.keys_add]
    split
    · rename_i hmem
      constructor
      · rintro (hk | hk)
        · exact Or.inl hk
        · exact Or.inr (List.mem_cons_of_mem _ hk)
      · rintro (hk | hk)
        · exact Or.inl hk
        · rcases List.mem_cons.1 hk with hk | hk
          · exact Or.inl (hk ▸ hmem)
          · exact Or.inr hk
    · simp only [List.mem_append, List.mem_singleton, List.map_cons, List.mem_cons]
      tauto

theorem encodeKeys_congr (v1 v2 : Values) (h : ∀ k, Values.get v1 k = Values.get v2 k)
    (buf : GoString) (ks : List GoString) : encodeKeys v1 buf ks = encodeKeys v2 buf ks := by
  induction ks generalizing buf with
  | nil => rfl
  | cons k rest ih => simp [encodeKeys, h, ih]

theorem mem_names_iff (pairs : List (GoString × GoString)) (k : GoString) :
    k ∈ pairs.map Prod.fst ↔ pairs.filter (fun p => p.1 = k) ≠ [] := by
  induction pairs with
  | nil => simp
  | cons p rest ih =>
    by_cases h : p.1 = k
    · simp [h, List.filter_cons]
    · have h2 : ¬ k = p.1 := fun e => h e.symm
      simp only [List.map_cons, List.mem_cons, h2, false_or, ih, List.filter_cons, h,
        decide_False]
      simp

theorem ParseQuery_encode_congr (q1 q2 : GoString)
    (h : ∀ name, (parsePairs q1).filter (fun p => p.1 = name) =
      (parsePairs q2).filter (fun p => p.1 = name)) :
    Values.Encode (ParseQuery q1) = Values.Encode (ParseQuery q2) := by
  have hg : ∀ k, Values.get (ParseQuery q1) k = Values.get (ParseQuery q2) k := by
    intro k
    simp [ParseQuery, Values.get_foldl, h k]
  obtain ⟨n1, m1⟩ := Values.keys_foldl (parsePairs q1) [] (by simp)
  obtain ⟨n2, m2⟩ := Values.keys_foldl (parsePairs q2) [] (by simp)
  have hperm : ((ParseQuery q1).map Prod.fst).Perm ((ParseQuery q2).map Prod.fst) := by
    apply (List.perm_ext_iff_of_nodup n1 n2).2
    intro k
    rw [m1 k, m2 k]
    simp only [List.map_nil, List.not_mem_nil, false_or]
    rw [mem_names_iff, mem_names_iff, h k]
  have hlen : (ParseQuery q1).length = (ParseQuery q2).length := by
    simpa using hperm.length_eq
  unfold Values.Encode
  rw [hlen, sortStrings_perm _ _ hperm]
  split
  · rfl
  · exact encodeKeys_congr _ _ hg _ _

theorem filter_name_of_perm (l1 l2 : List (GoString × GoString)) (hp : l1.Perm l2)
    (hn : (l1.map Prod.fst).Nodup) (k : GoString) :
    l1.filter (fun p => p.1 = k) = l2.filter (fun p => p.1 = k) := by
  have hf : (l1.filter (fun p => decide (p.1 = k))).Perm
      (l2.filter (fun p => decide (p.1 = k))) := hp.filter _
  have hsub : ((l1.filter (fun p => decide (p.1 = k))).map Prod.fst).Nodup :=
    hn.sublist ((List.filter_sublist l1).map _)
  have hall : ∀ x ∈ l1.filter (fun p => decide (p.1 = k)), x.1 = k := by
    intro x hx
    simpa using (List.mem_filter.1 hx).2
  generalize l1.filter (fun p => decide (p.1 = k)) = f1 at hf hsub hall
  match f1, hf, hsub, hall with
  | [], hf, _, _ => exact hf.nil_eq
  | [a], hf, _, _ => exact (List.singleton_perm.1 hf)
  | a :: b :: t, _, hsub, hall =>
    exfalso
    have ha := hall a (by simp)
    have hb := hall b (by simp)
    simp only [List.map_cons, List.nodup_cons, List.mem_cons] at hsub
    exact hsub.1 (Or.inl (ha.trans hb.symm))

/-- C7 (key derivation). `getKey` returns the bytes of
`method + "|" + path` when `IgnoreQuery` is true and of
`method + "|" + path + "|" + r.URL.Query().Encode()` when it is false; with
`IgnoreQuery` true two requests with the same method and path get the same
key whatever their queries. `getKey` is a total function: it has no error
result. -/
theorem getKey_derivation {S U : Type} (m : CacheMiddleware S U) (r : Request) :
    getKey m r =
        (if m.cfg.IgnoreQuery = true then r.Method ++ str "|" ++ r.Path
         else r.Method ++ str "|" ++ r.Path ++ str "|" ++ Values.Encode r.Query) ∧
      ∀ r1 r2 : Request, m.cfg.IgnoreQuery = true → r1.Method = r2.Method →
        r1.Path = r2.Path → getKey m r1 = getKey m r2 := by
  constructor
  · unfold getKey
    cases m.cfg.IgnoreQuery <;> simp
  · intro r1 r2 hi hm hp
    simp [getKey, hi, hm, hp]

/-- C7, at `GET /` and `GET /?foo=42&bar=84` with `IgnoreQuery` set. -/
theorem getKey_derivation_witness :
    getKey ignoreQueryMiddleware getRoot =
      getKey ignoreQueryMiddleware
        { Method := str "GET", Path := str "/", RawQuery := str "foo=42&bar=84" } :=
  (getKey_derivation ignoreQueryMiddleware getRoot).2 getRoot
    { Method := str "GET", Path := str "/", RawQuery := str "foo=42&bar=84" } rfl rfl rfl

/-- C8, as stated, fails: `a=1&a=2` and `a=2&a=1` consist of the same two
parameters in a different order, and with `IgnoreQuery` false `GET /` gets
the key `GET|/|a=1&a=2` for the first and `GET|/|a=2&a=1` for the second. -/
theorem getKey_query_order_counterexample :
    testMiddleware.cfg.IgnoreQuery = false ∧
      (splitOn '&'.toNat (str "a=1&a=2")).Perm (splitOn '&'.toNat (str "a=2&a=1")) ∧
      getKey testMiddleware { Method := str "GET", Path := str "/", RawQuery := str "a=1&a=2" } =
        str "GET|/|a=1&a=2" ∧
      getKey testMiddleware { Method := str "GET", Path := str "/", RawQuery := str "a=2&a=1" } =
        str "GET|/|a=2&a=1" ∧
      getKey testMiddleware { Method := str "GET", Path := str "/", RawQuery := str "a=1&a=2" } ≠
        getKey testMiddleware
          { Method := str "GET", Path := str "/", RawQuery := str "a=2&a=1" } := by
  refine ⟨rfl, ?_, by decide, by decide, by decide⟩
  exact List.Perm.swap _ _ _

/-- C8, amended. Two requests with the same method and path get the same key
when their queries hold, for every parameter name, the same parameters of
that name in the same order; this is so, in particular, when the pieces of
one query between the `&` are a permutation of the pieces of the other and no
two parameters have the same name. -/
theorem getKey_query_order {S U : Type} (m : CacheMiddleware S U) (r1 r2 : Request)
    (hm : r1.Method = r2.Method) (hp : r1.Path = r2.Path) :
    ((∀ name, (parsePairs r1.RawQuery).filter (fun p => p.1 = name) =
          (parsePairs r2.RawQuery).filter (fun p => p.1 = name)) →
        getKey m r1 = getKey m r2) ∧
      ((splitOn '&'.toNat r1.RawQuery).Perm (splitOn '&'.toNat r2.RawQuery) →
        ((parsePairs r1.RawQuery).map Prod.fst).Nodup → getKey m r1 = getKey m r2) := by
  have key : (∀ name, (parsePairs r1.RawQuery).filter (fun p => p.1 = name) =
      (parsePairs r2.RawQuery).filter (fun p => p.1 = name)) → getKey m r1 = getKey m r2 := by
    intro h
    simp [getKey, hm, hp, Request.Query, ParseQuery_encode_congr _ _ h]
  refine ⟨key, fun hperm hnd => key (fun name => ?_)⟩
  exact filter_name_of_perm _ _ (hperm.filterMap parseSegment) hnd name

/-- C8 amended, at `GET /?foo=42&bar=84` and `GET /?bar=84&foo=42`. -/
theorem getKey_query_order_witness :
    getKey testMiddleware
        { Method := str "GET", Path := str "/", RawQuery := str "foo=42&bar=84" } =
      getKey testMiddleware
        { Method := str "GET", Path := str "/", RawQuery := str "bar=84&foo=42" } :=
  (getKey_query_order testMiddleware
    { Method := str "GET", Path := str "/", RawQuery := str "foo=42&bar=84" }
    { Method := str "GET", Path := str "/", RawQuery := str "bar=84&foo=42" } rfl rfl).2
    (List.Perm.swap _ _ _) (by decide)

/-! ### The miss path inside `Handler` -/

theorem Handler_of_read_err {S U : Type} (m : CacheMiddleware S U) (d : Deps U)
    (next : HandlerFunc U) (r : Request) (s : S) (u : U) (err : GoError)
    (h : (isCacheable m r (World.start s u)).1 = true)
    (hr : (readCache m d (getKey m r) { request := r, recording := false }
      (Handler.beforeRead m r s u)).1 = some err) :
    Handler m d next r (World.start s u) =
      Handler.miss m d next { request := r, recording := false } (getKey m r) err
        (readCache m d (getKey m r) { request := r, recording := false }
          (Handler.beforeRead m r s u)).2 := by
  rw [Handler_eligible m d next r s u h]
  simp only [hr]

theorem Handler_of_read_ok {S U : Type} (m : CacheMiddleware S U) (d : Deps U)
    (next : HandlerFunc U) (r : Request) (s : S) (u : U)
    (h : (isCacheable m r (World.start s u)).1 = true)
    (hr : (readCache m d (getKey m r) { request := r, recording := false }
      (Handler.beforeRead m r s u)).1 = none) :
    Handler m d next r (World.start s u) =
      (none, (readCache m d (getKey m r) { request := r, recording := false }
          (Handler.beforeRead m r s u)).2) := by
  rw [Handler_eligible m d next r s u h]
  simp only [hr]

theorem readCache_trace_filter {S U : Type} (m : CacheMiddleware S U) (d : Deps U)
    (r : Request) (s : S) (u : U) (p : Event → Bool)
    (h0 : ∀ b, p (Event.cachePred b) = false) (h00 : p Event.warnBody = false)
    (h1 : ∀ b, p (Event.refreshPred b) = false) (h2 : ∀ k v e, p (Event.get k v e) = false)
    (h3 : ∀ x e, p (Event.replay x e) = false) :
    (readCache m d (getKey m r) { request := r, recording := false }
      (Handler.beforeRead m r s u)).2.trace.filter p = [] := by
  rw [readCache_filter m d _ _ _ p h1 h2 h3, beforeRead_filter m r s u p h0 h00]

theorem Handler_miss_next {S U : Type} (m : CacheMiddleware S U) (d : Deps U)
    (next : HandlerFunc U) (r : Request) (s : S) (u : U) (err : GoError)
    (h : (isCacheable m r (World.start s u)).1 = true)
    (hr : (readCache m d (getKey m r) { request := r, recording := false }
      (Handler.beforeRead m r s u)).1 = some err) :
    (Handler m d next r (World.start s u)).1 =
        (next { request := r, recording := true }
          (m.cfg.GetNotFoundErr
            (readCache m d (getKey m r) { request := r, recording := false }
              (Handler.beforeRead m r s u)).2.user).2).1.err ∧
      (Handler m d next r (World.start s u)).2.trace.filter Event.isNext =
        [Event.next true (next { request := r, recording := true }
          (m.cfg.GetNotFoundErr
            (readCache m d (getKey m r) { request := r, recording := false }
              (Handler.beforeRead m r s u)).2.user).2).1] ∧
      (Handler m d next r (World.start s u)).2.trace.filter Event.isInstall =
        [Event.installRecorder] := by
  rw [Handler_of_read_err m d next r s u err h hr]
  refine ⟨miss_fst _ _ _ _ _ _ _, ?_, ?_⟩
  · rw [miss_filter_next, readCache_trace_filter m d r s u Event.isNext (fun _ => rfl) rfl
      (fun _ => rfl) (fun _ _ _ => rfl) (fun _ _ => rfl)]
    rfl
  · rw [miss_filter_install, readCache_trace_filter m d r s u Event.isInstall (fun _ => rfl) rfl
      (fun _ => rfl) (fun _ _ _ => rfl) (fun _ _ => rfl)]
    rfl

/-- C9 (a failed read is a miss). For an eligible request for which
`Refresh` does not fire and the store's `Get` returns the error `e`,
`Handler` calls `Get` once with the key of the request, installs the
recorder, calls the downstream handler exactly once, with the recorder in
place, and returns its result; it logs `error reading cache` for `e` if and
only if `e` differs from the error returned by the call of
`GetNotFoundErr()`. The downstream handler runs on the state of the
application that this call leaves. -/
theorem Handler_read_error_is_miss {S U : Type} (m : CacheMiddleware S U) (d : Deps U)
    (next : HandlerFunc U) (r : Request) (s : S) (u : U) (e : GoError)
    (hpre : (isCacheable m r (World.start s u)).1 = true)
    (href : (refreshFires m r (Handler.beforeRead m r s u)).1 = false)
    (hget : (m.cache.Get (getKey m r) s).1.2 = some e) :
    (Handler m d next r (World.start s u)).1 =
        (next { request := r, recording := true }
          (m.cfg.GetNotFoundErr (Handler.afterRefresh m r s u).user).2).1.err ∧
      (Handler m d next r (World.start s u)).2.trace.filter Event.isNext =
        [Event.next true
          (next { request := r, recording := true }
            (m.cfg.GetNotFoundErr (Handler.afterRefresh m r s u).user).2).1] ∧
      (Handler m d next r (World.start s u)).2.trace.filter Event.isInstall =
        [Event.installRecorder] ∧
      (Handler m d next r (World.start s u)).2.trace.filter Event.isGet =
        [Event.get (getKey m r) (m.cache.Get (getKey m r) s).1.1 (some e)] ∧
      (Handler m d next r (World.start s u)).2.trace.filter Event.isLogRead =
        (if some e ≠ (m.cfg.GetNotFoundErr (Handler.afterRefresh m r s u).user).1 then
          [Event.logReadError e] else []) ∧
      (Event.logReadError e ∈ (Handler m d next r (World.start s u)).2.trace ↔
        some e ≠ (m.cfg.GetNotFoundErr (Handler.afterRefresh m r s u).user).1) := by
  have hst := beforeRead_store m r s u
  have hrc := readCache_of_get_err m d (getKey m r) { request := r, recording := false }
    (Handler.beforeRead m r s u) e href (by rw [hst]; exact hget)
  obtain ⟨h1, h2, _, h4⟩ := hrc
  have hn := Handler_miss_next m d next r s u e hpre h1
  have hu : (readCache m d (getKey m r) { request := r, recording := false }
      (Handler.beforeRead m r s u)).2.user = (Handler.afterRefresh m r s u).user := h2
  have hlog : (Handler m d next r (World.start s u)).2.trace.filter Event.isLogRead =
      (if some e ≠ (m.cfg.GetNotFoundErr (Handler.afterRefresh m r s u).user).1 then
        [Event.logReadError e] else []) := by
    rw [Handler_of_read_err m d next r s u e hpre h1, miss_filter_logRead,
      readCache_trace_filter m d r s u Event.isLogRead (fun _ => rfl) rfl
        (fun _ => rfl) (fun _ _ _ => rfl) (fun _ _ => rfl), hu]
    rfl
  refine ⟨?_, ?_, hn.2.2, ?_, hlog, ?_⟩
  · rw [hn.1, hu]
  · rw [hn.2.1, hu]
  · rw [Handler_of_read_err m d next r s u e hpre h1,
      miss_filter _ _ _ _ _ _ _ Event.isGet (fun _ => rfl) rfl (fun _ _ => rfl)
        (fun _ _ _ _ => rfl) (fun _ => rfl), h4, List.filter_append]
    have := afterRefresh_filter m r s u Event.isGet (fun _ => rfl) rfl (fun _ => rfl)
    simp only [Handler.afterRefresh] at this
    rw [this, hst]
    rfl
  · have hmem : Event.logReadError e ∈ (Handler m d next r (World.start s u)).2.trace ↔
        Event.logReadError e ∈
          (Handler m d next r (World.start s u)).2.trace.filter Event.isLogRead := by
      simp [List.mem_filter, Event.isLogRead]
    rw [hmem, hlog]
    by_cases hc : some e = (m.cfg.GetNotFoundErr (Handler.afterRefresh m r s u).user).1
    · simp [hc]
    · simp [hc]

/-- C9, at the first `GET /` of `TestCache`: the store is empty, `Get`
returns `freecache.ErrNotFound`, the handler runs once and nothing is
logged. -/
theorem Handler_read_error_is_miss_witness :
    (Handler testMiddleware testDeps (testHandler 200) getRoot
        (World.start [] 0)).2.trace.filter Event.isLogRead = [] :=
  (Handler_read_error_is_miss testMiddleware testDeps (testHandler 200) getRoot [] 0
    ErrNotFound (by decide) (by decide) (by decide)).2.2.2.2.1

/-- C10, as stated, fails. With the empty value stored under the key of
`GET /`, `Get` succeeds and `Decode` fails with the error `ext 7`; `Handler`
does not return that error: it logs it, installs the recorder, calls the
downstream handler, writes the fresh entry with `Set` and returns the `nil`
of the handler. -/
theorem Handler_decode_error_counterexample :
    (isCacheable testMiddleware getRoot (World.start corruptStore 0)).1 = true ∧
      (listStore.Get (getKey testMiddleware getRoot) corruptStore).1 = ([], none) ∧
      (testDeps.Decode []).2 = some (GoError.ext 7) ∧
      (Handler testMiddleware testDeps (testHandler 200) getRoot
        (World.start corruptStore 0)).1 = none ∧
      (Handler testMiddleware testDeps (testHandler 200) getRoot
        (World.start corruptStore 0)).2.trace =
        [Event.get (str "GET|/|") [] none,
          Event.logReadError (GoError.ext 7),
          Event.installRecorder,
          Event.next true
            { err := none,
              written := { StatusCode := 200, Header := [], Body := str "test_1" } },
          Event.set (str "GET|/|") (200 :: str "test_1") 60 none] := by
  refine ⟨by decide, by decide, rfl, rfl, ?_⟩
  decide

/-- C10, amended. For an eligible request for which `Refresh` does not fire,
`Get` succeeds and `Decode` of the stored bytes fails with `e`, `Handler`
treats the failure as a failed read: it logs `error reading cache` for `e`
if and only if `e` differs from the error returned by the call of
`GetNotFoundErr()`, replays nothing, installs the recorder, calls the
downstream handler exactly once (on the state of the application that this
call leaves) and returns the handler's result; when the captured status is in
`StatusCode` and `Encode` succeeds, the one `Set` writes the fresh entry
under the key of the request. -/
theorem Handler_decode_error_is_miss {S U : Type} (m : CacheMiddleware S U) (d : Deps U)
    (next : HandlerFunc U) (r : Request) (s : S) (u : U) (e : GoError)
    (hpre : (isCacheable m r (World.start s u)).1 = true)
    (href : (refreshFires m r (Handler.beforeRead m r s u)).1 = false)
    (hget : (m.cache.Get (getKey m r) s).1.2 = none)
    (hdec : (d.Decode (m.cache.Get (getKey m r) s).1.1).2 = some e) :
    (Handler m d next r (World.start s u)).1 =
        (next { request := r, recording := true }
          (m.cfg.GetNotFoundErr (Handler.afterRefresh m r s u).user).2).1.err ∧
      (Handler m d next r (World.start s u)).2.trace.filter Event.isNext =
        [Event.next true
          (next { request := r, recording := true }
            (m.cfg.GetNotFoundErr (Handler.afterRefresh m r s u).user).2).1] ∧
      (Handler m d next r (World.start s u)).2.trace.filter Event.isInstall =
        [Event.installRecorder] ∧
      (Handler m d next r (World.start s u)).2.trace.filter Event.isReplay = [] ∧
      (Handler m d next r (World.start s u)).2.trace.filter Event.isLogRead =
        (if some e ≠ (m.cfg.GetNotFoundErr (Handler.afterRefresh m r s u).user).1 then
          [Event.logReadError e] else []) ∧
      ((next { request := r, recording := true }
            (m.cfg.GetNotFoundErr (Handler.afterRefresh m r s u).user).2).1.written.StatusCode ∈
          m.cfg.StatusCode →
        (d.Encode (next { request := r, recording := true }
            (m.cfg.GetNotFoundErr (Handler.afterRefresh m r s u).user).2).1.written).2 = none →
        (Handler m d next r (World.start s u)).2.trace.filter Event.isSet =
          [Event.set (getKey m r)
            (d.Encode (next { request := r, recording := true }
              (m.cfg.GetNotFoundErr (Handler.afterRefresh m r s u).user).2).1.written).1
            (d.Seconds m.cfg.TTL)
            (m.cache.Set (getKey m r)
              (d.Encode (next { request := r, recording := true }
                (m.cfg.GetNotFoundErr (Handler.afterRefresh m r s u).user).2).1.written).1
              (d.Seconds m.cfg.TTL) (m.cache.Get (getKey m r) s).2).1]) := by
  have hst := beforeRead_store m r s u
  have hrc := readCache_of_decode_err m d (getKey m r) { request := r, recording := false }
    (Handler.beforeRead m r s u) e href (by rw [hst]; exact hget) (by rw [hst]; exact hdec)
  obtain ⟨h1, h2, h3, h4⟩ := hrc
  have hn := Handler_miss_next m d next r s u e hpre h1
  have hu : (readCache m d (getKey m r) { request := r, recording := false }
      (Handler.beforeRead m r s u)).2.user = (Handler.afterRefresh m r s u).user := h2
  refine ⟨?_, ?_, hn.2.2, ?_, ?_, ?_⟩
  · rw [hn.1, hu]
  · rw [hn.2.1, hu]
  · rw [Handler_of_read_err m d next r s u e hpre h1,
      miss_filter _ _ _ _ _ _ _ Event.isReplay (fun _ => rfl) rfl (fun _ _ => rfl)
        (fun _ _ _ _ => rfl) (fun _ => rfl)]
    have := afterRefresh_filter m r s u Event.isReplay (fun _ => rfl) rfl (fun _ => rfl)
    simp only [Handler.afterRefresh] at this
    rw [h4, List.filter_append, this]
    rfl
  · rw [Handler_of_read_err m d next r s u e hpre h1, miss_filter_logRead,
      readCache_trace_filter m d r s u Event.isLogRead (fun _ => rfl) rfl
        (fun _ => rfl) (fun _ _ _ => rfl) (fun _ _ => rfl), hu]
    rfl
  · intro hs hE
    rw [Handler_of_read_err m d next r s u e hpre h1]
    have hset := (miss_set_of_status m d next { request := r, recording := false } (getKey m r)
      e (readCache m d (getKey m r) { request := r, recording := false }
        (Handler.beforeRead m r s u)).2 (by rw [hu]; exact hE) (by rw [hu]; exact hs)).1
    rw [hset, readCache_trace_filter m d r s u Event.isSet (fun _ => rfl) rfl
        (fun _ => rfl) (fun _ _ _ => rfl) (fun _ _ => rfl), hu, h3, hst]
    rfl

/-- C10 amended, at `GET /` on a store whose value for the key cannot be
decoded: the handler runs once. -/
theorem Handler_decode_error_is_miss_witness :
    (Handler testMiddleware testDeps (testHandler 200) getRoot
        (World.start corruptStore 0)).2.trace.filter Event.isNext =
      [Event.next true
        { err := none,
          written := { StatusCode := 200, Header := [], Body := str "test_1" } }] :=
  (Handler_decode_error_is_miss testMiddleware testDeps (testHandler 200) getRoot corruptStore 0
    (GoError.ext 7) (by decide) (by decide) (by decide) rfl).2.1

/-- C6, at the failing input: a `Refresh` predicate that answers true and a
`GetNotFoundErr` that returns `nil`, on a store that holds an entry for the
key of `GET /`. To force the miss `readCache` returns the value of
`GetNotFoundErr()`, here `nil`, and `Handler` takes a `nil` of `readCache`
for a served hit. The request is eligible and `Refresh` answers true; the run
ends after the one call of `Refresh` and returns `nil`: `Get` is not called,
but the recorder is not installed, the downstream handler is not called,
nothing is replayed, nothing is written with `Set` and the stored entry stays
as it was. -/
theorem Handler_refresh_nil_sentinel :
    (isCacheable nilSentinelMiddleware getRoot
        (World.start [(str "GET|/|", 200 :: str "old")] 0)).1 = true ∧
      (refreshFires nilSentinelMiddleware getRoot
        (Handler.beforeRead nilSentinelMiddleware getRoot
          [(str "GET|/|", 200 :: str "old")] 0)).1 = true ∧
      (Handler nilSentinelMiddleware testDeps (testHandler 200) getRoot
        (World.start [(str "GET|/|", 200 :: str "old")] 0)).1 = none ∧
      (Handler nilSentinelMiddleware testDeps (testHandler 200) getRoot
        (World.start [(str "GET|/|", 200 :: str "old")] 0)).2.trace =
        [Event.refreshPred true] ∧
      (Handler nilSentinelMiddleware testDeps (testHandler 200) getRoot
        (World.start [(str "GET|/|", 200 :: str "old")] 0)).2.trace.filter Event.isNext = [] ∧
      (Handler nilSentinelMiddleware testDeps (testHandler 200) getRoot
        (World.start [(str "GET|/|", 200 :: str "old")] 0)).2.trace.filter Event.isSet = [] ∧
      (Handler nilSentinelMiddleware testDeps (testHandler 200) getRoot
        (World.start [(str "GET|/|", 200 :: str "old")] 0)).2.store =
        [(str "GET|/|", 200 :: str "old")] := by
  decide

/-- The defect behind the failing inputs of C4 and C6, for every middleware:
when the request is eligible, `Refresh` answers true and the call of
`GetNotFoundErr()` in `readCache` returns `nil`, `Handler` returns `nil` at
once. The run ends in the state left by that call: nothing is read, replayed
or written, and the downstream handler is not called. -/
theorem Handler_of_nil_sentinel {S U : Type} (m : CacheMiddleware S U) (d : Deps U)
    (next : HandlerFunc U) (r : Request) (s : S) (u : U)
    (hpre : (isCacheable m r (World.start s u)).1 = true)
    (href : (refreshFires m r (Handler.beforeRead m r s u)).1 = true)
    (hnil : (m.cfg.GetNotFoundErr (Handler.afterRefresh m r s u).user).1 = none) :
    Handler m d next r (World.start s u) =
      (none, { Handler.afterRefresh m r s u with
        user := (m.cfg.GetNotFoundErr (Handler.afterRefresh m r s u).user).2 }) := by
  have hrc := readCache_of_refresh m d (getKey m r) { request := r, recording := false }
    (Handler.beforeRead m r s u) href
  have h1 : (readCache m d (getKey m r) { request := r, recording := false }
      (Handler.beforeRead m r s u)).1 = none := by rw [hrc]; exact hnil
  rw [Handler_of_read_ok m d next r s u hpre h1, hrc]
  rfl

/-- The refresh override outside the defect of C6. For an eligible request
for which the `Refresh` predicate answers true and the call of
`GetNotFoundErr()` in `readCache` returns the non-nil error `e0`, `Handler`
never calls the store's `Get`, installs the recorder, calls the downstream
handler exactly once (on the state of the application left by the second
call of `GetNotFoundErr()`, the one of `Handler`) and returns its result; it
logs `error reading cache` for `e0` if and only if that second call returns
something else than `e0`; when the captured status is in `StatusCode` and
`Encode` succeeds, the one `Set` writes the encoding of the fresh entry under
`getKey` of the request, on the store as it was before the run. -/
theorem Handler_refresh_override {S U : Type} (m : CacheMiddleware S U) (d : Deps U)
    (next : HandlerFunc U) (r : Request) (s : S) (u : U) (e0 : GoError)
    (hpre : (isCacheable m r (World.start s u)).1 = true)
    (href : (refreshFires m r (Handler.beforeRead m r s u)).1 = true)
    (hnf : (m.cfg.GetNotFoundErr (Handler.afterRefresh m r s u).user).1 = some e0) :
    (Handler m d next r (World.start s u)).1 =
        (next { request := r, recording := true }
          (m.cfg.GetNotFoundErr
            (m.cfg.GetNotFoundErr (Handler.afterRefresh m r s u).user).2).2).1.err ∧
      (Handler m d next r (World.start s u)).2.trace.filter Event.isNext =
        [Event.next true
          (next { request := r, recording := true }
            (m.cfg.GetNotFoundErr
              (m.cfg.GetNotFoundErr (Handler.afterRefresh m r s u).user).2).2).1] ∧
      (Handler m d next r (World.start s u)).2.trace.filter Event.isInstall =
        [Event.installRecorder] ∧
      (Handler m d next r (World.start s u)).2.trace.filter Event.isGet = [] ∧
      (Handler m d next r (World.start s u)).2.trace.filter Event.isLogRead =
        (if some e0 ≠ (m.cfg.GetNotFoundErr
            (m.cfg.GetNotFoundErr (Handler.afterRefresh m r s u).user).2).1 then
          [Event.logReadError e0] else []) ∧
      ((next { request := r, recording := true }
            (m.cfg.GetNotFoundErr
              (m.cfg.GetNotFoundErr
                (Handler.afterRefresh m r s u).user).2).2).1.written.StatusCode ∈
          m.cfg.StatusCode →
        (d.Encode (next { request := r, recording := true }
            (m.cfg.GetNotFoundErr
              (m.cfg.GetNotFoundErr (Handler.afterRefresh m r s u).user).2).2).1.written).2 =
          none →
        (Handler m d next r (World.start s u)).2.trace.filter Event.isSet =
            [Event.set (getKey m r)
              (d.Encode (next { request := r, recording := true }
                (m.cfg.GetNotFoundErr
                  (m.cfg.GetNotFoundErr (Handler.afterRefresh m r s u).user).2).2).1.written).1
              (d.Seconds m.cfg.TTL)
              (m.cache.Set (getKey m r)
                (d.Encode (next { request := r, recording := true }
                  (m.cfg.GetNotFoundErr
                    (m.cfg.GetNotFoundErr
                      (Handler.afterRefresh m r s u).user).2).2).1.written).1
                (d.Seconds m.cfg.TTL) s).1] ∧
          (Handler m d next r (World.start s u)).2.store =
            (m.cache.Set (getKey m r)
              (d.Encode (next { request := r, recording := true }
                (m.cfg.GetNotFoundErr
                  (m.cfg.GetNotFoundErr (Handler.afterRefresh m r s u).user).2).2).1.written).1
              (d.Seconds m.cfg.TTL) s).2) := by
  have hrc := readCache_of_refresh m d (getKey m r) { request := r, recording := false }
    (Handler.beforeRead m r s u) href
  have h1 : (readCache m d (getKey m r) { request := r, recording := false }
      (Handler.beforeRead m r s u)).1 = some e0 := by rw [hrc]; exact hnf
  have h2 : (readCache m d (getKey m r) { request := r, recording := false }
      (Handler.beforeRead m r s u)).2 =
        { Handler.afterRefresh m r s u with
          user := (m.cfg.GetNotFoundErr (Handler.afterRefresh m r s u).user).2 } := by
    rw [hrc]; rfl
  have hn := Handler_miss_next m d next r s u e0 hpre h1
  rw [h2] at hn
  refine ⟨hn.1, hn.2.1, hn.2.2, ?_, ?_, ?_⟩
  · rw [Handler_of_read_err m d next r s u e0 hpre h1,
      miss_filter _ _ _ _ _ _ _ Event.isGet (fun _ => rfl) rfl (fun _ _ => rfl)
        (fun _ _ _ _ => rfl) (fun _ => rfl), h2]
    exact afterRefresh_filter m r s u Event.isGet (fun _ => rfl) rfl (fun _ => rfl)
  · rw [Handler_of_read_err m d next r s u e0 hpre h1, miss_filter_logRead, h2]
    have hf := afterRefresh_filter m r s u Event.isLogRead (fun _ => rfl) rfl (fun _ => rfl)
    show (Handler.afterRefresh m r s u).trace.filter Event.isLogRead ++ _ = _
    rw [hf]
    rfl
  · intro hs hE
    rw [Handler_of_read_err m d next r s u e0 hpre h1, h2]
    have hset := miss_set_of_status m d next { request := r, recording := false } (getKey m r)
      e0 { Handler.afterRefresh m r s u with
          user := (m.cfg.GetNotFoundErr (Handler.afterRefresh m r s u).user).2 } hE hs
    rw [hset.1, hset.2]
    have hf := afterRefresh_filter m r s u Event.isSet (fun _ => rfl) rfl (fun _ => rfl)
    have hst := afterRefresh_store m r s u
    show (Handler.afterRefresh m r s u).trace.filter Event.isSet ++ _ = _ ∧ _
    rw [hf]
    show _ ∧ (m.cache.Set _ _ _ (Handler.afterRefresh m r s u).store).2 = _
    rw [hst]
    exact ⟨rfl, rfl⟩

/-- The refresh override at `GET /` with a `Refresh` predicate that answers
true and the default `GetNotFoundErr`, on a store that already holds an entry
for the key: the store is not read and the fresh entry is written under the
same key. -/
theorem Handler_refresh_override_witness :
    (Handler refreshMiddleware testDeps (testHandler 200) getRoot
        (World.start [(str "GET|/|", 200 :: str "old")] 0)).2.trace.filter Event.isGet = [] ∧
      (Handler refreshMiddleware testDeps (testHandler 200) getRoot
        (World.start [(str "GET|/|", 200 :: str "old")] 0)).2.store =
        [(str "GET|/|", 200 :: str "test_1"), (str "GET|/|", 200 :: str "old")] :=
  ⟨(Handler_refresh_override refreshMiddleware testDeps (testHandler 200) getRoot
      [(str "GET|/|", 200 :: str "old")] 0 ErrNotFound (by decide) (by decide) rfl).2.2.2.1,
    ((Handler_refresh_override refreshMiddleware testDeps (testHandler 200) getRoot
      [(str "GET|/|", 200 :: str "old")] 0 ErrNotFound (by decide) (by decide) rfl).2.2.2.2.2
        (by decide) rfl).2⟩

/-- `Handler` calls `GetNotFoundErr()` twice when `Refresh` fires, once in
`readCache` for the error to return and once for the comparison before the
log. With a `GetNotFoundErr` that builds a new error at each call the two
differ, and the forced miss is logged as a read error. -/
theorem Handler_refresh_fresh_sentinel :
    (Handler freshSentinelMiddleware testDeps (testHandler 200) getRoot
        (World.start [] 0)).2.trace =
      [Event.refreshPred true,
        Event.logReadError (GoError.ext 1),
        Event.installRecorder,
        Event.next true
          { err := none,
            written := { StatusCode := 200, Header := [], Body := str "test_3" } },
        Event.set (str "GET|/|") (200 :: str "test_3") 60 none] := by
  decide

/-- The comment of the field `Refresh` says that the cache is deleted when
the predicate answers true; the code only skips the lookup. At `GET /` with a
`Refresh` predicate that answers true and a downstream handler that answers
500, a status that is not stored, nothing is written and the entry that was
stored stays. -/
theorem Handler_refresh_keeps_entry :
    (Handler refreshMiddleware testDeps (testHandler 500) getRoot
        (World.start [(str "GET|/|", 200 :: str "old")] 0)).2.trace.filter Event.isSet = [] ∧
      (Handler refreshMiddleware testDeps (testHandler 500) getRoot
        (World.start [(str "GET|/|", 200 :: str "old")] 0)).2.store =
        [(str "GET|/|", 200 :: str "old")] := by
  decide

/-- C4, at the failing input: a `Refresh` predicate that answers true and a
`GetNotFoundErr` that returns `nil`, on an empty store. `Handler` returns
`nil` on `GET /` although nothing was replayed and the downstream handler was
not called: the `nil` is the value of `GetNotFoundErr()`, which `readCache`
returns to force the miss and `Handler` takes for a served hit. -/
theorem Handler_result_nil_sentinel :
    (Handler nilSentinelMiddleware testDeps (testHandler 200) getRoot
        (World.start [] 0)).1 = none ∧
      (Handler nilSentinelMiddleware testDeps (testHandler 200) getRoot
        (World.start [] 0)).2.trace.filter Event.isReplay = [] ∧
      (Handler nilSentinelMiddleware testDeps (testHandler 200) getRoot
        (World.start [] 0)).2.trace.filter Event.isNext = [] := by
  decide

/-- The value returned by `Handler` outside the defect of C4. Unless the
request is eligible, `Refresh` answers true and the call of
`GetNotFoundErr()` in `readCache` returns `nil`, a run of `Handler`,
whatever the store, the codec and the downstream handler do, either returns
`nil` after one `Replay` that returned `nil`, without calling the downstream
handler, or calls the downstream handler exactly once and returns the value
that call returned. So no error of `Get`, `Decode`, `Replay`, `Encode` or
`Set` is returned. -/
theorem Handler_result {S U : Type} (m : CacheMiddleware S U) (d : Deps U)
    (next : HandlerFunc U) (r : Request) (s : S) (u : U)
    (hnf : (isCacheable m r (World.start s u)).1 = true →
      (refreshFires m r (Handler.beforeRead m r s u)).1 = true →
      (m.cfg.GetNotFoundErr (Handler.afterRefresh m r s u).user).1 ≠ none) :
    ((Handler m d next r (World.start s u)).1 = none ∧
        (∃ e, (Handler m d next r (World.start s u)).2.trace.filter Event.isReplay =
          [Event.replay e none]) ∧
        (Handler m d next r (World.start s u)).2.trace.filter Event.isNext = []) ∨
      ∃ b h, (Handler m d next r (World.start s u)).2.trace.filter Event.isNext =
          [Event.next b h] ∧
        (Handler m d next r (World.start s u)).1 = h.err := by
  cases hpre : (isCacheable m r (World.start s u)).1 with
  | false =>
    rw [Handler_of_not_cacheable m d next r _ hpre]
    refine Or.inr ⟨false, _, ?_, rfl⟩
    simp [callNext, isCacheable_filter _ _ _ Event.isNext (fun _ => rfl), World.start,
      Event.isNext]
  | true =>
    cases hrd : (readCache m d (getKey m r) { request := r, recording := false }
        (Handler.beforeRead m r s u)).1 with
    | some err =>
      have h := Handler_miss_next m d next r s u err hpre hrd
      exact Or.inr ⟨_, _, h.2.1, h.1⟩
    | none =>
      left
      have hst := beforeRead_store m r s u
      rw [Handler_of_read_ok m d next r s u hpre hrd]
      refine ⟨rfl, ?_, readCache_trace_filter m d r s u Event.isNext (fun _ => rfl) rfl
        (fun _ => rfl) (fun _ _ _ => rfl) (fun _ _ => rfl)⟩
      cases href : (refreshFires m r (Handler.beforeRead m r s u)).1 with
      | true =>
        rw [readCache_of_refresh m d (getKey m r) { request := r, recording := false }
          (Handler.beforeRead m r s u) href] at hrd
        exact absurd hrd (hnf hpre href)
      | false =>
        cases hget : (m.cache.Get (getKey m r) (Handler.beforeRead m r s u).store).1.2 with
        | some e =>
          rw [(readCache_of_get_err m d (getKey m r) { request := r, recording := false }
            (Handler.beforeRead m r s u) e href hget).1] at hrd
          cases hrd
        | none =>
          cases hdec : (d.Decode
              (m.cache.Get (getKey m r) (Handler.beforeRead m r s u).store).1.1).2 with
          | some e =>
            rw [(readCache_of_decode_err m d (getKey m r) { request := r, recording := false }
              (Handler.beforeRead m r s u) e href hget hdec).1] at hrd
            cases hrd
          | none =>
            have hrp := readCache_of_replay m d (getKey m r) { request := r, recording := false }
              (Handler.beforeRead m r s u) href hget hdec
            rw [hrp.1] at hrd
            refine ⟨(d.Decode
              (m.cache.Get (getKey m r) (Handler.beforeRead m r s u).store).1.1).1, ?_⟩
            rw [hrp.2.2, List.filter_append]
            have := afterRefresh_filter m r s u Event.isReplay (fun _ => rfl) rfl (fun _ => rfl)
            simp only [Handler.afterRefresh] at this
            rw [this, hrd]
            rfl

/-- The value returned by `Handler` at the first `GET /` of `TestCache` with
a store whose `Set` fails: the handler is called once and its value is
returned. -/
theorem Handler_result_witness :
    ∃ b h, (Handler failingSetMiddleware testDeps (testHandler 200) getRoot
          (World.start [] 0)).2.trace.filter Event.isNext = [Event.next b h] ∧
        (Handler failingSetMiddleware testDeps (testHandler 200) getRoot
          (World.start [] 0)).1 = h.err :=
  (Handler_result failingSetMiddleware testDeps (testHandler 200) getRoot [] 0
    (fun _ h => absurd h (by decide))).resolve_left (fun h => absurd h.2.2 (by decide))

/-- C1 (idempotence under cache hit). Take a request that passes the
pre-check and for which `Refresh` does not fire, a store whose `Get` fails
for the key of the request at the start and returns, after a `Set` for that
key, the value that was set, a downstream handler whose captured status is in
`StatusCode`, a codec that decodes the encoding of a captured entry to that
entry, and a `Replay` that succeeds. Then the first run of `Handler` calls
the downstream handler exactly once and returns its result, and a second run
from the state left by the first does not call it: it returns `nil` after
replaying exactly the entry captured by the first run. -/
theorem Handler_idempotent {S U : Type} (m : CacheMiddleware S U) (d : Deps U)
    (next : HandlerFunc U) (r : Request) (s : S) (u : U)
    (hpre : ∀ w : World S U, (isCacheable m r w).1 = true)
    (href : ∀ w : World S U, (refreshFires m r w).1 = false)
    (hmiss : (m.cache.Get (getKey m r) s).1.2 ≠ none)
    (hstore : ∀ (v : Bytes) (t : Int) (s1 : S),
      (m.cache.Get (getKey m r) (m.cache.Set (getKey m r) v t s1).2).1 = (v, none))
    (hnext : ∀ (c : Context) (u1 : U), (next c u1).1.written.StatusCode ∈ m.cfg.StatusCode)
    (hcodec : ∀ (c : Context) (u1 : U), (d.Encode (next c u1).1.written).2 = none ∧
      d.Decode (d.Encode (next c u1).1.written).1 = ((next c u1).1.written, none))
    (hreplay : ∀ (e : CacheEntry) (u1 : U), (d.Replay e u1).1 = none) :
    ∃ h : HandlerResult,
      (Handler m d next r (World.start s u)).2.trace.filter Event.isNext =
          [Event.next true h] ∧
        (Handler m d next r (World.start s u)).1 = h.err ∧
        (Handler m d next r
          (World.start (Handler m d next r (World.start s u)).2.store
            (Handler m d next r (World.start s u)).2.user)).2.trace.filter Event.isNext = [] ∧
        (Handler m d next r
          (World.start (Handler m d next r (World.start s u)).2.store
            (Handler m d next r (World.start s u)).2.user)).2.trace.filter Event.isReplay =
          [Event.replay h.written none] ∧
        (Handler m d next r
          (World.start (Handler m d next r (World.start s u)).2.store
            (Handler m d next r (World.start s u)).2.user)).1 = none := by
  -- the first run
  obtain ⟨e, he⟩ := Option.ne_none_iff_exists'.1 hmiss
  have hst := beforeRead_store m r s u
  obtain ⟨h1, -, h3, -⟩ := readCache_of_get_err m d (getKey m r)
    { request := r, recording := false } (Handler.beforeRead m r s u) e (href _)
    (by rw [hst]; exact he)
  have hn := Handler_miss_next m d next r s u e (hpre _) h1
  have hset := (miss_set_of_status m d next { request := r, recording := false } (getKey m r) e
    (readCache m d (getKey m r) { request := r, recording := false }
      (Handler.beforeRead m r s u)).2 (hcodec _ _).1 (hnext _ _)).2
  rw [← Handler_of_read_err m d next r s u e (hpre _) h1] at hset
  have hc := hcodec { request := r, recording := true }
    (m.cfg.GetNotFoundErr
      (readCache m d (getKey m r) { request := r, recording := false }
        (Handler.beforeRead m r s u)).2.user).2
  refine ⟨_, hn.2.1, hn.1, ?_⟩
  -- the second run
  generalize (Handler m d next r (World.start s u)).2.user = u2
  generalize (Handler m d next r (World.start s u)).2.store = s2 at hset ⊢
  generalize (next { request := r, recording := true }
    (m.cfg.GetNotFoundErr
      (readCache m d (getKey m r) { request := r, recording := false }
        (Handler.beforeRead m r s u)).2.user).2).1 = h at hset hc ⊢
  have hst2 := beforeRead_store m r s2 u2
  have hget2 : (m.cache.Get (getKey m r) (Handler.beforeRead m r s2 u2).store).1 =
      ((d.Encode h.written).1, none) := by
    rw [hst2, hset]
    exact hstore _ _ _
  have hrp := readCache_of_replay m d (getKey m r) { request := r, recording := false }
    (Handler.beforeRead m r s2 u2) (href _) (by rw [hget2]) (by rw [hget2, hc.2])
  have hrd2 : (readCache m d (getKey m r) { request := r, recording := false }
      (Handler.beforeRead m r s2 u2)).1 = none := by
    rw [hrp.1]
    exact hreplay _ _
  rw [Handler_of_read_ok m d next r s2 u2 (hpre _) hrd2]
  refine ⟨readCache_trace_filter m d r s2 u2 Event.isNext (fun _ => rfl) rfl
    (fun _ => rfl) (fun _ _ _ => rfl) (fun _ _ => rfl), ?_, rfl⟩
  have hf := afterRefresh_filter m r s2 u2 Event.isReplay (fun _ => rfl) rfl (fun _ => rfl)
  simp only [Handler.afterRefresh] at hf
  rw [hrp.2.2, List.filter_append, hf, hget2, hc.2, hreplay]
  rfl

/-- C1, at the first two requests of `TestCache`: `GET /` twice on an empty
store. The handler runs once, and the second run replays `test_1`. -/
theorem Handler_idempotent_witness :
    ∃ h : HandlerResult,
      (Handler testMiddleware testDeps (testHandler 200) getRoot
        (World.start [] 0)).2.trace.filter Event.isNext = [Event.next true h] ∧
        (Handler testMiddleware testDeps (testHandler 200) getRoot (World.start [] 0)).1 =
          h.err ∧
        (Handler testMiddleware testDeps (testHandler 200) getRoot
          (World.start
            (Handler testMiddleware testDeps (testHandler 200) getRoot (World.start [] 0)).2.store
            (Handler testMiddleware testDeps (testHandler 200) getRoot
              (World.start [] 0)).2.user)).2.trace.filter Event.isNext = [] ∧
        (Handler testMiddleware testDeps (testHandler 200) getRoot
          (World.start
            (Handler testMiddleware testDeps (testHandler 200) getRoot (World.start [] 0)).2.store
            (Handler testMiddleware testDeps (testHandler 200) getRoot
              (World.start [] 0)).2.user)).2.trace.filter Event.isReplay =
          [Event.replay h.written none] ∧
        (Handler testMiddleware testDeps (testHandler 200) getRoot
          (World.start
            (Handler testMiddleware testDeps (testHandler 200) getRoot (World.start [] 0)).2.store
            (Handler testMiddleware testDeps (testHandler 200) getRoot
              (World.start [] 0)).2.user)).1 = none :=
  Handler_idempotent testMiddleware testDeps (testHandler 200) getRoot [] 0
    (fun _ => rfl) (fun _ => rfl) (by decide)
    (fun v _ s1 => by simp [testMiddleware, listStore, List.lookup])
    (fun _ _ => by simp [testHandler, testMiddleware, testConfig])
    (fun _ _ => by simp [testHandler, testDeps])
    (fun _ _ => rfl)

/-! ### Injectivity of `getKey` -/

theorem str_bar : str "|" = [ '|'.toNat] := by decide

theorem append_sep_inj_left (x : Nat) (a a1 b b1 : List Nat) (ha : x ∉ a) (ha1 : x ∉ a1)
    (h : a ++ x :: b = a1 ++ x :: b1) : a = a1 ∧ b = b1 := by
  induction a generalizing a1 with
  | nil =>
    cases a1 with
    | nil => simpa using h
    | cons y ys =>
      simp only [List.nil_append, List.cons_append, List.cons.injEq] at h
      exact absurd (by simp [h.1]) ha1
  | cons z zs ih =>
    cases a1 with
    | nil =>
      simp only [List.nil_append, List.cons_append, List.cons.injEq] at h
      exact absurd (by simp [h.1]) ha
    | cons y ys =>
      simp only [List.cons_append, List.cons.injEq] at h
      obtain ⟨h1, h2⟩ := ih ys (fun hx => ha (List.mem_cons_of_mem _ hx))
        (fun hx => ha1 (List.mem_cons_of_mem _ hx)) h.2
      exact ⟨by rw [h.1, h1], h2⟩

theorem append_sep_inj_right (x : Nat) (a a1 b b1 : List Nat) (hb : x ∉ b) (hb1 : x ∉ b1)
    (h : a ++ x :: b = a1 ++ x :: b1) : a = a1 ∧ b = b1 := by
  have hr : b.reverse ++ x :: a.reverse = b1.reverse ++ x :: a1.reverse := by
    have := congrArg List.reverse h
    simpa using this
  obtain ⟨h1, h2⟩ := append_sep_inj_left x b.reverse b1.reverse a.reverse a1.reverse
    (by simpa using hb) (by simpa using hb1) hr
  exact ⟨List.reverse_injective h2, List.reverse_injective h1⟩

/-- C13 (key injectivity). For two requests whose methods contain no `|` and
whose re-encoded queries contain no `|`, equal keys mean the same method and
the same path and, when `IgnoreQuery` is false, the same re-encoded query;
the paths may contain `|`. So two requests that differ in method, in path
or, `IgnoreQuery` being false, in re-encoded query get different keys. -/
theorem getKey_injective {S U : Type} (m : CacheMiddleware S U) (r1 r2 : Request)
    (hm1 : '|'.toNat ∉ r1.Method) (hm2 : '|'.toNat ∉ r2.Method)
    (hq1 : '|'.toNat ∉ Values.Encode r1.Query) (hq2 : '|'.toNat ∉ Values.Encode r2.Query)
    (hk : getKey m r1 = getKey m r2) :
    r1.Method = r2.Method ∧ r1.Path = r2.Path ∧
      (m.cfg.IgnoreQuery = false → Values.Encode r1.Query = Values.Encode r2.Query) := by
  unfold getKey at hk
  simp only [str_bar] at hk
  cases hi : m.cfg.IgnoreQuery with
  | true =>
    simp only [hi, Bool.not_true, Bool.false_eq_true, if_false, List.append_assoc,
      List.singleton_append] at hk
    obtain ⟨h1, h2⟩ := append_sep_inj_left _ _ _ _ _ hm1 hm2 hk
    exact ⟨h1, h2, fun h => by cases h⟩
  | false =>
    simp only [hi, Bool.not_false, if_true, List.append_assoc, List.singleton_append] at hk
    obtain ⟨h1, h2⟩ := append_sep_inj_left _ _ _ _ _ hm1 hm2 hk
    obtain ⟨h3, h4⟩ := append_sep_inj_right _ _ _ _ _ hq1 hq2 h2
    exact ⟨h1, h3, fun _ => h4⟩

/-- C13, at `GET /a|b?x=1&y=2` and `GET /a|b?y=2&x=1`, which get the same
key: the re-encoded queries are the same. -/
theorem getKey_injective_witness :
    Values.Encode (ParseQuery (str "x=1&y=2")) = Values.Encode (ParseQuery (str "y=2&x=1")) :=
  (getKey_injective testMiddleware
    { Method := str "GET", Path := str "/a|b", RawQuery := str "x=1&y=2" }
    { Method := str "GET", Path := str "/a|b", RawQuery := str "y=2&x=1" }
    (by decide) (by decide) (by decide) (by decide) (by decide)).2.2 rfl

/-! ### When the predicates are evaluated -/

theorem filter_eq_nil_of_noPred (l : List Event) (h : ∀ e ∈ l, e.noPred) :
    l.filter Event.isCachePred = [] ∧ l.filter Event.isRefreshPred = [] := by
  constructor
  · exact List.filter_eq_nil_iff.2 (fun e he => by simp [(h e he).1])
  · exact List.filter_eq_nil_iff.2 (fun e he => by simp [(h e he).2])

theorem isCacheable_trace {S U : Type} (m : CacheMiddleware S U) (r : Request)
    (w : World S U) :
    (isCacheable m r w).2.trace = w.trace ++
      (match m.cfg.Cache with
       | some f => [Event.cachePred (f r w.user).1]
       | none => []) := by
  unfold isCacheable
  cases m.cfg.Cache <;> simp

theorem refreshFires_trace {S U : Type} (m : CacheMiddleware S U) (r : Request)
    (w : World S U) :
    (refreshFires m r w).2.trace = w.trace ++
      (match m.cfg.Refresh with
       | some f => [Event.refreshPred (f r w.user).1]
       | none => []) := by
  unfold refreshFires
  cases m.cfg.Refresh <;> simp

theorem readCache_trace_append {S U : Type} (m : CacheMiddleware S U) (d : Deps U)
    (key : Bytes) (c : Context) (w : World S U) :
    ∃ l, (readCache m d key c w).2.trace = (refreshFires m c.request w).2.trace ++ l ∧
      ∀ e ∈ l, e.noPred := by
  unfold readCache
  simp only []
  split
  · exact ⟨[], by simp [callNotFound], by simp⟩
  · split
    · exact ⟨_, rfl, by simp [Event.noPred, Event.isCachePred, Event.isRefreshPred]⟩
    · split
      · exact ⟨_, rfl, by simp [Event.noPred, Event.isCachePred, Event.isRefreshPred]⟩
      · exact ⟨[_, _], by simp only [List.append_assoc, List.singleton_append]; rfl,
          by simp [Event.noPred, Event.isCachePred, Event.isRefreshPred]⟩

theorem cacheResult_trace_append {S U : Type} (m : CacheMiddleware S U) (d : Deps U)
    (key : Bytes) (r : ResponseRecorder) (w : World S U) :
    ∃ l, (cacheResult m d key r w).2.trace = w.trace ++ l ∧ ∀ e ∈ l, e.noPred := by
  unfold cacheResult
  simp only []
  split
  · exact ⟨[], by simp, by simp⟩
  · split
    · exact ⟨[], by simp, by simp⟩
    · exact ⟨_, rfl, by simp [Event.noPred, Event.isCachePred, Event.isRefreshPred]⟩

theorem missFrom_trace_append {S U : Type} (m : CacheMiddleware S U) (d : Deps U)
    (next : HandlerFunc U) (c : Context) (key : Bytes) (err : GoError) (nf : GoErr)
    (w : World S U) :
    ∃ l, (Handler.missFrom m d next c key err nf w).2.trace = w.trace ++ l ∧
      ∀ e ∈ l, e.noPred := by
  unfold Handler.missFrom
  simp only []
  generalize hw2 : (if some err ≠ nf then w.emit (Event.logReadError err) else w) = w2
  have h2 : ∃ l, w2.trace = w.trace ++ l ∧ ∀ e ∈ l, e.noPred := by
    rw [← hw2]
    split
    · exact ⟨[Event.logReadError err], rfl,
        by simp [Event.noPred, Event.isCachePred, Event.isRefreshPred]⟩
    · exact ⟨[], by simp, by simp⟩
  obtain ⟨l2, e2, n2⟩ := h2
  obtain ⟨l3, e3, n3⟩ := cacheResult_trace_append m d key
    { snapshot := (callNext next { request := c.request, recording := true }
        (w2.emit Event.installRecorder)).1.written }
    (callNext next { request := c.request, recording := true }
      (w2.emit Event.installRecorder)).2
  have hbase : (callNext next { request := c.request, recording := true }
      (w2.emit Event.installRecorder)).2.trace =
        w.trace ++ (l2 ++ [Event.installRecorder,
          Event.next true (next { request := c.request, recording := true } w2.user).1]) := by
    simp [callNext, World.emit, e2]
  have nbase : ∀ e ∈ l2 ++ [Event.installRecorder,
      Event.next true (next { request := c.request, recording := true } w2.user).1],
      e.noPred := by
    intro e he
    rcases List.mem_append.1 he with h | h
    · exact n2 e h
    · simp only [List.mem_cons, List.mem_singleton, List.not_mem_nil, or_false] at h
      rcases h with h | h <;> subst h <;>
        simp [Event.noPred, Event.isCachePred, Event.isRefreshPred]
  split
  · rename_i err2 _
    refine ⟨(l2 ++ [Event.installRecorder,
      Event.next true (next { request := c.request, recording := true } w2.user).1]) ++ l3 ++
        [Event.logError err2], ?_, ?_⟩
    · have hemit : ∀ (x : World S U) (e : Event), (x.emit e).trace = x.trace ++ [e] :=
        fun _ _ => rfl
      rw [hemit, e3, hbase]
      simp only [List.append_assoc]
    · intro e he
      rcases List.mem_append.1 he with h | h
      · rcases List.mem_append.1 h with h | h
        · exact nbase e h
        · exact n3 e h
      · simp only [List.mem_singleton] at h
        subst h
        simp [Event.noPred, Event.isCachePred, Event.isRefreshPred]
  · refine ⟨(l2 ++ [Event.installRecorder,
      Event.next true (next { request := c.request, recording := true } w2.user).1]) ++ l3,
        ?_, ?_⟩
    · simp only [e3, hbase, List.append_assoc]
    · intro e he
      rcases List.mem_append.1 he with h | h
      · exact nbase e h
      · exact n3 e h

theorem miss_trace_append {S U : Type} (m : CacheMiddleware S U) (d : Deps U)
    (next : HandlerFunc U) (c : Context) (key : Bytes) (err : GoError) (w : World S U) :
    ∃ l, (Handler.miss m d next c key err w).2.trace = w.trace ++ l ∧ ∀ e ∈ l, e.noPred :=
  missFrom_trace_append m d next c key err (callNotFound m w).1 (callNotFound m w).2

theorem Handler_trace_append {S U : Type} (m : CacheMiddleware S U) (d : Deps U)
    (next : HandlerFunc U) (r : Request) (s : S) (u : U) :
    ∃ l, (Handler m d next r (World.start s u)).2.trace =
        (if (isCacheable m r (World.start s u)).1 = true then
          (Handler.afterRefresh m r s u).trace
        else (isCacheable m r (World.start s u)).2.trace) ++ l ∧
      ∀ e ∈ l, e.noPred := by
  cases hpre : (isCacheable m r (World.start s u)).1 with
  | false =>
    rw [Handler_of_not_cacheable m d next r _ hpre]
    exact ⟨_, rfl, by simp [Event.noPred, Event.isCachePred, Event.isRefreshPred]⟩
  | true =>
    rw [Handler_eligible m d next r s u hpre]
    obtain ⟨l, hl, nl⟩ := readCache_trace_append m d (getKey m r)
      { request := r, recording := false } (Handler.beforeRead m r s u)
    simp only [if_true]
    split
    · exact ⟨l, hl, nl⟩
    · rename_i err _
      obtain ⟨l1, hl1, nl1⟩ := miss_trace_append m d next { request := r, recording := false }
        (getKey m r) err (readCache m d (getKey m r) { request := r, recording := false }
          (Handler.beforeRead m r s u)).2
      refine ⟨l ++ l1, ?_, ?_⟩
      · rw [hl1, hl, List.append_assoc]
        rfl
      · intro e he
        rcases List.mem_append.1 he with h | h
        · exact nl e h
        · exact nl1 e h

/-- C14 (predicate evaluation discipline). In every run of `Handler` the
`Cache` predicate is evaluated exactly once when one is configured (and
never otherwise); the `Refresh` predicate is evaluated exactly once when
one is configured and the pre-check passes, and not at all when the pre-check
fails; and the trace splits into a first part without any `Get` and a
second part without any evaluation of `Refresh`, so `Refresh` is evaluated
before any `Get`. -/
theorem Handler_predicate_discipline {S U : Type} (m : CacheMiddleware S U) (d : Deps U)
    (next : HandlerFunc U) (r : Request) (s : S) (u : U) :
    ((Handler m d next r (World.start s u)).2.trace.filter Event.isCachePred).length =
        (if m.cfg.Cache.isSome = true then 1 else 0) ∧
      ((Handler m d next r (World.start s u)).2.trace.filter Event.isRefreshPred).length =
        (if (isCacheable m r (World.start s u)).1 = true ∧ m.cfg.Refresh.isSome = true then 1
         else 0) ∧
      ∃ A B, (Handler m d next r (World.start s u)).2.trace = A ++ B ∧
        A.filter Event.isGet = [] ∧ B.filter Event.isRefreshPred = [] := by
  obtain ⟨l, hl, nl⟩ := Handler_trace_append m d next r s u
  obtain ⟨nc, nr⟩ := filter_eq_nil_of_noPred l nl
  have hc : (isCacheable m r (World.start s u)).2.trace.filter Event.isCachePred =
      (match m.cfg.Cache with
       | some f => [Event.cachePred (f r u).1]
       | none => []) := by
    rw [isCacheable_trace]
    cases m.cfg.Cache <;> simp [World.start, Event.isCachePred]
  have hcr : (isCacheable m r (World.start s u)).2.trace.filter Event.isRefreshPred = [] := by
    rw [isCacheable_filter _ _ _ Event.isRefreshPred (fun _ => rfl)]
    rfl
  have hbr : (Handler.beforeRead m r s u).trace.filter Event.isCachePred =
      (isCacheable m r (World.start s u)).2.trace.filter Event.isCachePred := by
    unfold Handler.beforeRead
    rw [warn_filter _ _ Event.isCachePred rfl]
  rw [hl, List.filter_append, List.filter_append, nc, nr, List.append_nil, List.append_nil]
  cases hpre : (isCacheable m r (World.start s u)).1 with
  | false =>
    simp only [Bool.false_eq_true, if_false, false_and]
    refine ⟨?_, by rw [hcr]; rfl, _, _, rfl,
      isCacheable_filter _ _ _ Event.isGet (fun _ => rfl), nr⟩
    rw [hc]
    cases m.cfg.Cache <;> rfl
  | true =>
    simp only [if_true, true_and]
    refine ⟨?_, ?_, _, _, rfl,
      afterRefresh_filter m r s u Event.isGet (fun _ => rfl) rfl (fun _ => rfl), nr⟩
    · unfold Handler.afterRefresh
      rw [refreshFires_filter _ _ _ Event.isCachePred (fun _ => rfl), hbr, hc]
      cases m.cfg.Cache <;> rfl
    · unfold Handler.afterRefresh
      rw [refreshFires_trace, List.filter_append,
        beforeRead_filter m r s u Event.isRefreshPred (fun _ => rfl) rfl]
      cases m.cfg.Refresh <;> rfl

/-! ### `int(d.Seconds())` below `2^24` seconds -/

theorem roundHalfEven_bounds (num den : Nat) (hd : 0 < den) :
    2 * num ≤ 2 * (roundHalfEven num den * den) + den ∧
      2 * (roundHalfEven num den * den) ≤ 2 * num + den ∧
      num / den ≤ roundHalfEven num den := by
  have h1 : den * (num / den) + num % den = num := Nat.div_add_mod num den
  have h2 : num % den < den := Nat.mod_lt _ hd
  have h3 : (num / den + 1) * den = den * (num / den) + den := by ring
  have h4 : num / den * den = den * (num / den) := by ring
  unfold roundHalfEven
  simp only []
  split
  · rw [h4]; omega
  · split
    · rw [h3]; omega
    · split
      · rw [h4]; omega
      · rw [h3]; omega

theorem binadeShift_spec (a b : Nat) (fuel k : Nat) (h : 2 ^ 52 * b ≤ a * 2 ^ (k + fuel)) :
    2 ^ 52 * b ≤ a * 2 ^ (binadeShift a b fuel k) ∧ k ≤ binadeShift a b fuel k ∧
      ∀ j, k ≤ j → j < binadeShift a b fuel k → a * 2 ^ j < 2 ^ 52 * b := by
  induction fuel generalizing k with
  | zero =>
    simp only [binadeShift]
    exact ⟨by simpa using h, le_refl _, fun j h1 h2 => absurd h2 (by omega)⟩
  | succ n ih =>
    simp only [binadeShift]
    split
    · rename_i hk
      exact ⟨hk, le_refl _, fun j h1 h2 => absurd h2 (by omega)⟩
    · rename_i hk
      obtain ⟨h1, h2, h3⟩ := ih (k + 1) (by rw [show k + 1 + n = k + (n + 1) by omega]; exact h)
      refine ⟨h1, by omega, fun j hj1 hj2 => ?_⟩
      rcases Nat.eq_or_lt_of_le hj1 with e | e
      · subst e
        omega
      · exact h3 j e hj2


theorem binadeShift_fuel (a b e n : Nat) (ha : 0 < a) (hb : b ≤ 2 ^ e) (he : 52 + e ≤ n) :
    2 ^ 52 * b ≤ a * 2 ^ (0 + n) := by
  rw [Nat.zero_add]
  have h1 : 2 ^ 52 * b ≤ 2 ^ 52 * 2 ^ e := Nat.mul_le_mul_left _ hb
  have h2 : 2 ^ 52 * 2 ^ e ≤ 2 ^ n := by
    rw [← Nat.pow_add]
    exact Nat.pow_le_pow_right (by norm_num) he
  exact le_trans (le_trans h1 h2) (Nat.le_mul_of_pos_left _ ha)

theorem roundF64_add_toInt (sec m k : Nat) (hsec : sec < 2 ^ 24) (hk : k ≤ 1000)
    (hm : m * 2 ^ 30 < (2 ^ 30 - 1) * 2 ^ k) :
    (roundF64 (sec * 2 ^ k + m) (2 ^ k)).toInt = sec := by
  have hD : 0 < 2 ^ k := Nat.two_pow_pos k
  generalize hDe : 2 ^ k = D at hm hD
  have hmD : m < D := by
    norm_num at hm
    omega
  obtain ⟨t, ht⟩ : ∃ t, D = m + t := ⟨D - m, by omega⟩
  have ht1 : m + t < 2 ^ 30 * t := by
    rw [ht] at hm
    norm_num at hm ⊢
    omega
  unfold roundF64
  split
  · rename_i h0
    have : sec * D = 0 := by omega
    rcases Nat.mul_eq_zero.1 this with h | h
    · simp [F64.toInt, h]
    · omega
  · rename_i h0
    have hfuel : 2 ^ 52 * D ≤ (sec * D + m) * 2 ^ (0 + 1100) :=
      binadeShift_fuel (sec * D + m) D k 1100 (Nat.pos_of_ne_zero h0) (le_of_eq hDe.symm)
        (by omega)
    obtain ⟨a1, -, a3⟩ := binadeShift_spec (sec * D + m) D 1100 0 hfuel
    generalize binadeShift (sec * D + m) D 1100 0 = k1 at a1 a3 ⊢
    simp only [F64.toInt]
    have hk1 : 29 ≤ k1 := by
      by_contra hlt
      have h28 : k1 ≤ 28 := by omega
      have hp : 2 ^ k1 ≤ 2 ^ 28 := Nat.pow_le_pow_right (by norm_num) h28
      have hN : sec * D + m < 2 ^ 24 * D := by
        have : (sec + 1) * D ≤ 2 ^ 24 * D := Nat.mul_le_mul_right _ (by omega)
        have e : (sec + 1) * D = sec * D + D := by ring
        omega
      have h2 : (sec * D + m) * 2 ^ k1 ≤ (sec * D + m) * 2 ^ 28 := Nat.mul_le_mul_left _ hp
      have h3 : (sec * D + m) * 2 ^ 28 < 2 ^ 24 * D * 2 ^ 28 :=
        Nat.mul_lt_mul_of_pos_right hN (by norm_num)
      have h4 : 2 ^ 24 * D * 2 ^ 28 = 2 ^ 52 * D := by ring
      omega
    have hP : 2 ^ 29 ≤ 2 ^ k1 := Nat.pow_le_pow_right (by norm_num) hk1
    generalize 2 ^ k1 = P at a1 hP ⊢
    obtain ⟨b1, b2, b3⟩ := roundHalfEven_bounds ((sec * D + m) * P) D hD
    generalize roundHalfEven ((sec * D + m) * P) D = m1 at b1 b2 b3 ⊢
    have hPpos : 0 < P := by
      have : 0 < 2 ^ 29 := by norm_num
      omega
    have lower : sec * P ≤ m1 := by
      refine le_trans ?_ b3
      rw [Nat.le_div_iff_mul_le hD]
      have : (sec * D + m) * P = sec * P * D + m * P := by ring
      omega
    have upper : m1 < (sec + 1) * P := by
      by_contra hge
      have hge1 : (sec + 1) * P ≤ m1 := by omega
      have h5 : (sec + 1) * P * D ≤ m1 * D := Nat.mul_le_mul_right _ hge1
      have e1 : (sec + 1) * P * D = sec * P * (m + t) + P * m + P * t := by rw [ht]; ring
      have e2 : (sec * D + m) * P = sec * P * (m + t) + P * m := by rw [ht]; ring
      have h6 : 2 ^ 30 * t ≤ 2 * P * t := Nat.mul_le_mul_right _ (by omega)
      have e3 : 2 * P * t = 2 * (P * t) := by ring
      omega
    apply Nat.div_eq_of_lt_le
    · simpa [Nat.mul_comm] using lower
    · simpa [Nat.mul_comm, Nat.succ_eq_add_one] using upper


theorem roundF64_frac (a : Nat) (ha : a < 1000000000) :
    (roundF64 a 1000000000).exp ≤ 1000 ∧
      (roundF64 a 1000000000).num * 2 ^ 30 < (2 ^ 30 - 1) * 2 ^ (roundF64 a 1000000000).exp := by
  unfold roundF64
  split
  · norm_num
  · rename_i h0
    have hfuel : 2 ^ 52 * 1000000000 ≤ a * 2 ^ (0 + 1100) :=
      binadeShift_fuel a 1000000000 30 1100 (Nat.pos_of_ne_zero h0) (by norm_num) (by omega)
    obtain ⟨a1, -, a3⟩ := binadeShift_spec a 1000000000 1100 0 hfuel
    generalize binadeShift a 1000000000 1100 0 = k at a1 a3 ⊢
    simp only []
    have hk53 : 53 ≤ k := by
      by_contra hlt
      have hp : 2 ^ k ≤ 2 ^ 52 := Nat.pow_le_pow_right (by norm_num) (by omega)
      have h2 : a * 2 ^ k ≤ a * 2 ^ 52 := Nat.mul_le_mul_left _ hp
      norm_num at a1 h2
      omega
    have hk82 : k ≤ 82 := by
      by_contra hgt
      have h1 := a3 82 (by omega) (by omega)
      have h2 : 1 * 2 ^ 82 ≤ a * 2 ^ 82 := Nat.mul_le_mul_right _ (by omega)
      norm_num at h1 h2
      omega
    refine ⟨by omega, ?_⟩
    have hX : 2 ^ 53 ≤ 2 ^ k := Nat.pow_le_pow_right (by norm_num) hk53
    generalize 2 ^ k = X at a1 hX ⊢
    obtain ⟨-, b2, -⟩ := roundHalfEven_bounds (a * X) 1000000000 (by norm_num)
    generalize roundHalfEven (a * X) 1000000000 = m at b2 ⊢
    have hY : a * X ≤ 999999999 * X := Nat.mul_le_mul_right _ (by omega)
    generalize a * X = Y at b2 hY
    norm_num at hX ⊢
    omega


theorem secondsF64_toInt (d : Nat) (hd : d < 2 ^ 24 * 1000000000) :
    (secondsF64 d).toInt = d / 1000000000 := by
  unfold secondsF64
  simp only []
  obtain ⟨h1, h2⟩ := roundF64_frac (d % 1000000000) (Nat.mod_lt _ (by norm_num))
  exact roundF64_add_toInt (d / 1000000000) _ _
    ((Nat.div_lt_iff_lt_mul (by norm_num)).2 hd) h1 h2

theorem intSeconds_eq_tdiv (d : Int) (h1 : -(2 ^ 24 * 1000000000) < d)
    (h2 : d < 2 ^ 24 * 1000000000) : intSeconds d = d.tdiv 1000000000 := by
  unfold intSeconds
  split
  · rename_i h0
    obtain ⟨n, rfl⟩ := Int.eq_ofNat_of_zero_le h0
    rw [Int.toNat_ofNat, secondsF64_toInt n (by omega)]
    rfl
  · rename_i h0
    obtain ⟨n, hn⟩ := Int.eq_ofNat_of_zero_le (show 0 ≤ -d by omega)
    rw [hn, Int.toNat_ofNat, secondsF64_toInt n (by omega)]
    have : d = -(n : Int) := by omega
    rw [this, Int.neg_tdiv]
    rfl

/-! ### The arguments of `Set` -/

theorem cacheResult_set_shape {S U : Type} (m : CacheMiddleware S U) (d : Deps U)
    (key : Bytes) (r : ResponseRecorder) (w : World S U) :
    ∃ l, (cacheResult m d key r w).2.trace = w.trace ++ l ∧
      ∀ ev ∈ l, ∃ e,
        ev = Event.set key (d.Encode r.Result).1 (d.Seconds m.cfg.TTL) e := by
  unfold cacheResult
  simp only []
  split
  · exact ⟨[], by simp, by simp⟩
  · split
    · exact ⟨[], by simp, by simp⟩
    · exact ⟨_, rfl, by simp⟩

theorem missFrom_set_shape {S U : Type} (m : CacheMiddleware S U) (d : Deps U)
    (next : HandlerFunc U) (c : Context) (key : Bytes) (err : GoError) (nf : GoErr)
    (w : World S U)
    (ev : Event) (hev : ev ∈ (Handler.missFrom m d next c key err nf w).2.trace)
    (hs : ev.isSet = true) :
    ev ∈ w.trace ∨ ∃ e, ev = Event.set key
      (d.Encode (next { request := c.request, recording := true } w.user).1.written).1
      (d.Seconds m.cfg.TTL) e := by
  unfold Handler.missFrom at hev
  simp only [] at hev
  generalize hw2 : (if some err ≠ nf then w.emit (Event.logReadError err) else w) = w2 at hev
  have h2 : w2.user = w.user ∧ ∀ x ∈ w2.trace, x.isSet = true → x ∈ w.trace := by
    rw [← hw2]
    split
    · refine ⟨rfl, fun x hx hxs => ?_⟩
      rcases List.mem_append.1 hx with h | h
      · exact h
      · simp only [List.mem_singleton] at h
        subst h
        simp [Event.isSet] at hxs
    · exact ⟨rfl, fun x hx _ => hx⟩
  obtain ⟨l3, e3, n3⟩ := cacheResult_set_shape m d key
    { snapshot := (callNext next { request := c.request, recording := true }
        (w2.emit Event.installRecorder)).1.written }
    (callNext next { request := c.request, recording := true }
      (w2.emit Event.installRecorder)).2
  have hemit : ∀ (x : World S U) (e : Event), (x.emit e).trace = x.trace ++ [e] :=
    fun _ _ => rfl
  have hcr : ev ∈ (cacheResult m d key
      { snapshot := (callNext next { request := c.request, recording := true }
          (w2.emit Event.installRecorder)).1.written }
      (callNext next { request := c.request, recording := true }
        (w2.emit Event.installRecorder)).2).2.trace := by
    revert hev
    split
    · intro hev
      rw [hemit] at hev
      rcases List.mem_append.1 hev with h | h
      · exact h
      · simp only [List.mem_singleton] at h
        subst h
        simp [Event.isSet] at hs
    · exact fun hev => hev
  rw [e3] at hcr
  rcases List.mem_append.1 hcr with h | h
  · left
    have hb : (callNext next { request := c.request, recording := true }
        (w2.emit Event.installRecorder)).2.trace =
          w2.trace ++ [Event.installRecorder,
            Event.next true (next { request := c.request, recording := true } w2.user).1] := by
      simp [callNext, World.emit]
    rw [hb] at h
    rcases List.mem_append.1 h with h | h
    · exact h2.2 ev h hs
    · simp only [List.mem_cons, List.mem_singleton, List.not_mem_nil, or_false] at h
      rcases h with h | h <;> subst h <;> simp [Event.isSet] at hs
  · right
    obtain ⟨e, he⟩ := n3 ev h
    refine ⟨e, ?_⟩
    rw [he]
    simp [callNext, World.emit, ResponseRecorder.Result, h2.1]

theorem miss_set_shape {S U : Type} (m : CacheMiddleware S U) (d : Deps U)
    (next : HandlerFunc U) (c : Context) (key : Bytes) (err : GoError) (w : World S U)
    (ev : Event) (hev : ev ∈ (Handler.miss m d next c key err w).2.trace)
    (hs : ev.isSet = true) :
    ev ∈ w.trace ∨ ∃ e, ev = Event.set key
      (d.Encode (next { request := c.request, recording := true }
        (m.cfg.GetNotFoundErr w.user).2).1.written).1
      (d.Seconds m.cfg.TTL) e :=
  missFrom_set_shape m d next c key err (callNotFound m w).1 (callNotFound m w).2 ev hev hs

theorem Handler_set_shape {S U : Type} (m : CacheMiddleware S U) (d : Deps U)
    (next : HandlerFunc U) (r : Request) (s : S) (u : U) (ev : Event)
    (hev : ev ∈ (Handler m d next r (World.start s u)).2.trace) (hs : ev.isSet = true) :
    ∃ h e, Event.next true h ∈ (Handler m d next r (World.start s u)).2.trace ∧
      ev = Event.set (getKey m r) (d.Encode h.written).1 (d.Seconds m.cfg.TTL) e := by
  have hf : ev ∈ (Handler m d next r (World.start s u)).2.trace.filter Event.isSet :=
    List.mem_filter.2 ⟨hev, hs⟩
  cases hpre : (isCacheable m r (World.start s u)).1 with
  | false =>
    rw [Handler_of_not_cacheable m d next r _ hpre] at hf
    simp [callNext, isCacheable_filter _ _ _ Event.isSet (fun _ => rfl), World.start,
      Event.isSet] at hf
  | true =>
    have hrd := readCache_trace_filter m d r s u Event.isSet (fun _ => rfl) rfl
      (fun _ => rfl) (fun _ _ _ => rfl) (fun _ _ => rfl)
    cases hr : (readCache m d (getKey m r) { request := r, recording := false }
        (Handler.beforeRead m r s u)).1 with
    | none =>
      rw [Handler_of_read_ok m d next r s u hpre hr] at hf
      rw [hrd] at hf
      simp at hf
    | some err =>
      have hn := (Handler_miss_next m d next r s u err hpre hr).2.1
      have hmem : Event.next true (next { request := r, recording := true }
          (m.cfg.GetNotFoundErr
            (readCache m d (getKey m r) { request := r, recording := false }
              (Handler.beforeRead m r s u)).2.user).2).1 ∈
          (Handler m d next r (World.start s u)).2.trace := by
        have : Event.next true (next { request := r, recording := true }
            (m.cfg.GetNotFoundErr
              (readCache m d (getKey m r) { request := r, recording := false }
                (Handler.beforeRead m r s u)).2.user).2).1 ∈
            (Handler m d next r (World.start s u)).2.trace.filter Event.isNext := by
          rw [hn]
          simp
        exact (List.mem_filter.1 this).1
      rw [Handler_of_read_err m d next r s u err hpre hr] at hev
      rcases miss_set_shape m d next _ _ _ _ ev hev hs with h | ⟨e, he⟩
      · have : ev ∈ (readCache m d (getKey m r) { request := r, recording := false }
            (Handler.beforeRead m r s u)).2.trace.filter Event.isSet :=
          List.mem_filter.2 ⟨h, hs⟩
        rw [hrd] at this
        simp at this
      · exact ⟨_, e, hmem, he⟩

/-- C11 (defaults at construction). `New` with a `nil` configuration builds
a middleware whose configuration has `TTL` = one minute = 60 seconds,
`Methods` = `[GET]`, `StatusCode` = `[200, 404]`, `IgnoreQuery` = false, no
`Refresh`, no `Cache` and a `GetNotFoundErr` that returns
`freecache.ErrNotFound` and leaves the state of the application as it is.
With a configuration `cfg`, each of `TTL`,
`Methods`, `StatusCode` and `GetNotFoundErr` is the default when `cfg` leaves
it unset and the value of `cfg` otherwise, and `IgnoreQuery`, `Refresh` and
`Cache` are the values of `cfg`; the store is the one given. -/
theorem New_defaults {S U : Type} (cache : Cache S) :
    ((New (none : Option (RawConfig U)) cache).cfg.TTL = 60 * Second ∧
        (New (none : Option (RawConfig U)) cache).cfg.Methods = [str "GET"] ∧
        (New (none : Option (RawConfig U)) cache).cfg.StatusCode = [200, 404] ∧
        (New (none : Option (RawConfig U)) cache).cfg.IgnoreQuery = false ∧
        (New (none : Option (RawConfig U)) cache).cfg.Refresh.isNone = true ∧
        (New (none : Option (RawConfig U)) cache).cfg.Cache.isNone = true ∧
        (∀ u : U, (New (none : Option (RawConfig U)) cache).cfg.GetNotFoundErr u =
          (some ErrNotFound, u)) ∧
        (New (none : Option (RawConfig U)) cache).cache = cache) ∧
      ∀ cfg : RawConfig U,
        (New (some cfg) cache).cfg.TTL = (if cfg.TTL = 0 then 60 * Second else cfg.TTL) ∧
          (New (some cfg) cache).cfg.Methods =
            (if cfg.Methods = [] then [str "GET"] else cfg.Methods) ∧
          (New (some cfg) cache).cfg.StatusCode =
            (if cfg.StatusCode = [] then [200, 404] else cfg.StatusCode) ∧
          (New (some cfg) cache).cfg.GetNotFoundErr =
            (match cfg.GetNotFoundErr with
             | none => fun u => (some ErrNotFound, u)
             | some f => f) ∧
          (New (some cfg) cache).cfg.IgnoreQuery = cfg.IgnoreQuery ∧
          (New (some cfg) cache).cfg.Refresh = cfg.Refresh ∧
          (New (some cfg) cache).cfg.Cache = cfg.Cache ∧
          (New (some cfg) cache).cache = cache := by
  refine ⟨⟨rfl, rfl, rfl, rfl, rfl, rfl, fun _ => rfl, rfl⟩, fun cfg => ?_⟩
  refine ⟨rfl, ?_, ?_, ?_, rfl, rfl, rfl, rfl⟩
  · simp only [New, SetDefaults, List.length_eq_zero]
  · simp only [New, SetDefaults, List.length_eq_zero]
  · simp only [New, SetDefaults]
    cases cfg.GetNotFoundErr <;> rfl

/-- C12, as stated, fails. With a `TTL` of 16777216999999999 nanoseconds
(`2^24` seconds and 999999999 nanoseconds) `cacheResult` calls `Set` with the
ttl 16777217, because `Seconds()` rounds the sum to the float64 16777217.0;
the nanosecond count divided by `10^9` and truncated is 16777216. -/
theorem cacheResult_ttl_counterexample :
    longTTLMiddleware.cfg.TTL = 16777216999999999 ∧
      testDeps.Seconds = intSeconds ∧
      (cacheResult longTTLMiddleware testDeps (str "GET|/|")
        { snapshot := { StatusCode := 200, Header := [], Body := str "test_1" } }
        (World.start [] 0)).2.trace =
        [Event.set (str "GET|/|") (200 :: str "test_1") 16777217 none] ∧
      Int.tdiv 16777216999999999 1000000000 = 16777216 := by
  refine ⟨rfl, rfl, ?_, by decide⟩
  decide

/-- C12, amended. When `Seconds` is the conversion `int(d.Seconds())` of
Go, every call of `Set` made by `cacheResult` has the key given to
`cacheResult`, the encoding of the recorder's result and the ttl
`int(TTL.Seconds())`; for a `TTL` strictly between `-2^24` and `2^24` seconds
that ttl is the nanosecond count divided by `10^9` and truncated toward zero;
and every call of `Set` in a run of `Handler` has the key `getKey` of the
request, the encoding of what the downstream handler wrote under the
recorder, and that ttl. -/
theorem cacheResult_set_arguments {S U : Type} (m : CacheMiddleware S U) (d : Deps U)
    (key : Bytes) (r : ResponseRecorder) (w : World S U) (hsec : d.Seconds = intSeconds) :
    (∃ l, (cacheResult m d key r w).2.trace = w.trace ++ l ∧
        ∀ k v t e, Event.set k v t e ∈ l →
          k = key ∧ v = (d.Encode r.Result).1 ∧ t = intSeconds m.cfg.TTL) ∧
      (-(2 ^ 24 * 1000000000) < m.cfg.TTL → m.cfg.TTL < 2 ^ 24 * 1000000000 →
        intSeconds m.cfg.TTL = m.cfg.TTL.tdiv 1000000000) ∧
      ∀ (next : HandlerFunc U) (req : Request) (s : S) (u : U) k v t e,
        Event.set k v t e ∈ (Handler m d next req (World.start s u)).2.trace →
          k = getKey m req ∧ t = intSeconds m.cfg.TTL ∧
            ∃ h, Event.next true h ∈ (Handler m d next req (World.start s u)).2.trace ∧
              v = (d.Encode h.written).1 := by
  refine ⟨?_, intSeconds_eq_tdiv m.cfg.TTL, ?_⟩
  · obtain ⟨l, hl, nl⟩ := cacheResult_set_shape m d key r w
    refine ⟨l, hl, fun k v t e he => ?_⟩
    obtain ⟨e1, h1⟩ := nl _ he
    simp only [Event.set.injEq] at h1
    rw [h1.1, h1.2.1, h1.2.2.1, hsec]
    exact ⟨rfl, rfl, rfl⟩
  · intro next req s u k v t e he
    obtain ⟨h, e1, hn, h1⟩ := Handler_set_shape m d next req s u _ he rfl
    simp only [Event.set.injEq] at h1
    rw [h1.1, h1.2.1, h1.2.2.1, hsec]
    exact ⟨rfl, rfl, h, hn, rfl⟩

/-- C12 amended, at the default `TTL` of one minute: the ttl is 60. -/
theorem cacheResult_set_arguments_witness :
    intSeconds testMiddleware.cfg.TTL = 60 :=
  (cacheResult_set_arguments testMiddleware testDeps (str "GET|/|")
    { snapshot := { StatusCode := 200, Header := [], Body := str "test_1" } }
    (World.start [] 0) rfl).2.1 (by decide) (by decide)

end EchoCache
